import Mathlib

/-!
Verification development for the qlib-vision data-ingestion scripts.

The definitions below are a shallow embedding of the Python sources:

* `scripts/data_collector/baostock_1d/collector.py`
  (`BaostockCollector.get_data_from_remote`, `BaostockNormalize.calc_change`,
  `BaostockNormalize.normalize_baostock`, `BaostockNormalize1d.adjusted_price`,
  `BaostockNormalize1dExtend.normalize`);
* `scripts/check_data_health.py`
  (`check_instrument_data`, `DataHealthChecker.summarize_results`).

Modelling conventions:

* pandas float values are modelled by `FV`: an exact rational, `+inf`, `-inf`,
  or `NaN` (rounding is not modelled; signed zero is not modelled).
* dates (`pd.Timestamp`) are modelled by `Nat` ordinals; `pd.to_datetime` and
  `strftime` are the identity in this model.
* `pd.to_numeric(col, errors="coerce")` is the identity: input fields are
  already taken in its image, a rational value or `NaN`.
* a pandas operation that raises an exception is modelled by `Option.none` /
  `Except.error`; a DataFrame is a list of rows.
-/

set_option maxRecDepth 4000

/- Batteries marks the `Rat` arithmetic operations `@[irreducible]`, which
blocks `decide` on concrete rational computations; restore the default
reducibility (the kernel ignores reducibility attributes, so proofs are
unaffected). -/
set_option allowUnsafeReducibility true
attribute [semireducible] Rat.mul Rat.div Rat.sub Rat.add Rat.inv Rat.neg

/-- An IEEE-754-style value as produced by the pandas computations of the
scripts: `NaN`, `+inf`, `-inf`, or a finite value (exact rational). -/
inductive FV where
  | nan : FV
  | inf : FV
  | ninf : FV
  | fin : ℚ → FV
deriving DecidableEq, Repr

/-- `True` exactly on `NaN` (`pd.isna` on a float value). -/
def FV.isNan : FV → Bool
  | .nan => true
  | _ => false

/-- Float multiplication (`*` on pandas columns): `NaN` propagates,
`±inf * 0 = NaN`, signs of infinities multiply. -/
def fvMul : FV → FV → FV
  | .nan, _ => .nan
  | .inf, .nan => .nan
  | .ninf, .nan => .nan
  | .fin _, .nan => .nan
  | .fin a, .fin b => .fin (a * b)
  | .inf, .fin b => if b = 0 then .nan else if 0 < b then .inf else .ninf
  | .fin a, .inf => if a = 0 then .nan else if 0 < a then .inf else .ninf
  | .ninf, .fin b => if b = 0 then .nan else if 0 < b then .ninf else .inf
  | .fin a, .ninf => if a = 0 then .nan else if 0 < a then .ninf else .inf
  | .inf, .inf => .inf
  | .inf, .ninf => .ninf
  | .ninf, .inf => .ninf
  | .ninf, .ninf => .inf

/-- Float division (`/` on pandas columns): `x/0 = ±inf` for finite `x ≠ 0`,
`0/0 = NaN`, `±inf/±inf = NaN`, finite`/±inf = 0` (the sign of that zero is
not tracked). -/
def fvDiv : FV → FV → FV
  | .nan, _ => .nan
  | .inf, .nan => .nan
  | .ninf, .nan => .nan
  | .fin _, .nan => .nan
  | .fin a, .fin b =>
      if b = 0 then (if a = 0 then .nan else if 0 < a then .inf else .ninf)
      else .fin (a / b)
  | .fin _, .inf => .fin 0
  | .fin _, .ninf => .fin 0
  | .inf, .fin b => if 0 ≤ b then .inf else .ninf
  | .ninf, .fin b => if 0 ≤ b then .ninf else .inf
  | .inf, .inf => .nan
  | .inf, .ninf => .nan
  | .ninf, .inf => .nan
  | .ninf, .ninf => .nan

/-- Float subtraction. -/
def fvSub : FV → FV → FV
  | .nan, _ => .nan
  | .inf, .nan => .nan
  | .ninf, .nan => .nan
  | .fin _, .nan => .nan
  | .fin a, .fin b => .fin (a - b)
  | .inf, .inf => .nan
  | .ninf, .ninf => .nan
  | .inf, _ => .inf
  | .ninf, _ => .ninf
  | .fin _, .inf => .ninf
  | .fin _, .ninf => .inf

/-- Float `<` as a boolean (NumPy semantics: any comparison with `NaN` is
`False`). -/
def fvLtB : FV → FV → Bool
  | .nan, _ => false
  | _, .nan => false
  | .fin a, .fin b => decide (a < b)
  | .ninf, .ninf => false
  | .ninf, _ => true
  | _, .ninf => false
  | .inf, _ => false
  | .fin _, .inf => true

/-- Float `≤` as a boolean (`NaN` compares `False`). -/
def fvLeB : FV → FV → Bool
  | .nan, _ => false
  | _, .nan => false
  | .fin a, .fin b => decide (a ≤ b)
  | .ninf, _ => true
  | _, .ninf => false
  | _, .inf => true
  | .inf, .fin _ => false

/-- IEEE equality as a boolean: `NaN` is equal to nothing, including itself. -/
def fvEqB : FV → FV → Bool
  | .nan, _ => false
  | _, .nan => false
  | .fin a, .fin b => a == b
  | .inf, .inf => true
  | .ninf, .ninf => true
  | _, _ => false

/-- Python `!=` on float values (negation of IEEE equality). -/
def fvNeB (a b : FV) : Bool := !(fvEqB a b)

/-- Float absolute value. -/
def fvAbs : FV → FV
  | .nan => .nan
  | .inf => .inf
  | .ninf => .inf
  | .fin a => .fin |a|

/-- `Series.max()` with pandas' default `skipna=True`: the maximum of the
non-`NaN` entries, `NaN` when there is none. -/
def fvMaxSkipna (l : List FV) : FV :=
  l.foldl (fun acc x =>
    if x.isNan then acc
    else if acc.isNan then x
    else if fvLtB acc x then x else acc) FV.nan

/-- `Series.ffill()`: each `NaN` entry is replaced by the most recent
non-`NaN` entry before it (the seed `last` stands for "nothing seen yet" when
it is `NaN`). -/
def ffill (last : FV) : List FV → List FV
  | [] => []
  | x :: xs => if x.isNan then last :: ffill last xs else x :: ffill x xs

/-- `Series.cumprod()` with pandas' default `skipna=True`: a `NaN` entry
yields `NaN` at its own position and is skipped by the running product. -/
def cumprodSkipna (acc : FV) : List FV → List FV
  | [] => []
  | x :: xs =>
      if x.isNan then FV.nan :: cumprodSkipna acc xs
      else
        let a := fvMul acc x
        a :: cumprodSkipna a xs

/-- `Series.pct_change(fill_method=None)`: entry `0` is `NaN`, entry `i > 0`
is `x[i] / x[i-1] - 1` (pandas computes `data / data.shift(1) - 1`). -/
def pctChange : List FV → List FV
  | [] => []
  | x :: xs =>
      FV.nan :: List.zipWith (fun prev cur => fvSub (fvDiv cur prev) (FV.fin 1)) (x :: xs) xs

/-- `Series.shift(1)`: a leading `NaN`, and the last entry dropped. -/
def shiftOne (l : List FV) : List FV := FV.nan :: l.dropLast

/-- The volume-validity mask of `normalize_baostock` lines 152/155:
`(df["volume"] <= 0) | np.isnan(df["volume"])`. -/
def badValB (v : FV) : Bool := fvLeB v (FV.fin 0) || v.isNan

/-! ## Raw provider rows and the normalizer
(`BaostockNormalize` / `BaostockNormalize1d`, collector.py lines 111-207)

A raw row models one record of `bs.query_history_k_data_plus` after numeric
coercion; only the fields the normalizer reads are carried (`amount`, `turn`,
`tradestatus`, `pctChg`, `isST`, `adjustflag`, `code` are dragged along by the
Python code but never read after line 152 sets them to `NaN` on invalid rows:
the `adjustflag`-based factor of lines 176-180 is dead code, overwritten
unconditionally at line 192). -/

structure RawRow where
  date : Nat
  symbol : String
  open_ : FV
  high : FV
  low : FV
  close : FV
  preclose : FV
  volume : FV
deriving DecidableEq, Repr

/-- A row of the output of `normalize_baostock` (before `adjusted_price`). -/
structure BRow where
  date : Nat
  symbol : String
  open_ : FV
  high : FV
  low : FV
  close : FV
  preclose : FV
  volume : FV
  change : FV
deriving DecidableEq, Repr

/-- A fully normalized row (after `adjusted_price`): `volume` has been divided
by `factor`. -/
structure NRow where
  date : Nat
  symbol : String
  open_ : FV
  high : FV
  low : FV
  close : FV
  preclose : FV
  volume : FV
  change : FV
  factor : FV
deriving DecidableEq, Repr

/-- `df[~df.index.duplicated(keep="first")]`: keep the first row of each
date. -/
def dedupGo (seen : List Nat) : List RawRow → List RawRow
  | [] => []
  | x :: xs =>
      if x.date ∈ seen then dedupGo seen xs
      else x :: dedupGo (x.date :: seen) xs

/-- An all-`NaN` row inserted by `reindex` for a calendar date with no data
(the symbol column of such a row is overwritten at the end of
`normalize_baostock`; the placeholder is irrelevant). -/
def nanRow (d : Nat) : RawRow :=
  ⟨d, "", FV.nan, FV.nan, FV.nan, FV.nan, FV.nan, FV.nan⟩

/-- `df.reindex(calendar.loc[min(date) : max(date) + 23h59m].index)`
(collector.py lines 140-148): restrict the calendar to the inclusive span of
the data's dates, keep the row at each retained calendar date and insert an
all-`NaN` row where there is none.  Rows whose date is not in the calendar are
dropped by `reindex`. -/
def reindexCal (c : List Nat) (l : List RawRow) : List RawRow :=
  match l with
  | [] => []
  | x :: xs =>
      let ds := (x :: xs).map (·.date)
      let lo := ds.foldl Nat.min x.date
      let hi := ds.foldl Nat.max x.date
      (c.filter (fun d => decide (lo ≤ d) && decide (d ≤ hi))).map fun d =>
        match (x :: xs).find? (fun r => r.date == d) with
        | some r => r
        | none => nanRow d

/-- The sort relation of `df.sort_index()`. -/
def dateLe (a b : RawRow) : Prop := a.date ≤ b.date

instance : DecidableRel dateLe := fun a b => Nat.decLe a.date b.date

instance : IsTotal RawRow dateLe := ⟨fun a b => Nat.le_total a.date b.date⟩

instance : IsTrans RawRow dateLe := ⟨fun _ _ _ h h' => Nat.le_trans h h'⟩

/-- `df.sort_index()` on the date index. -/
def sortByDate (l : List RawRow) : List RawRow := List.insertionSort dateLe l

/-- Line 152: a row with non-positive or `NaN` volume has every column except
the symbol set to `NaN` (the date is the index, not a column). -/
def maskRow (r : RawRow) : RawRow :=
  if badValB r.volume then
    { r with open_ := FV.nan, high := FV.nan, low := FV.nan, close := FV.nan,
             preclose := FV.nan, volume := FV.nan }
  else r

/-- `BaostockNormalize.calc_change` (collector.py lines 114-122): forward-fill
`close`, shift by one, optionally seed the first shifted entry with
`last_close`, and return the ratio minus one.  (Python would raise on an empty
series with a supplied `last_close`; `normalize_baostock` never calls it that
way because it returns early on an empty frame.) -/
def calcChange (closes : List FV) (lastClose : Option ℚ) : List FV :=
  let tmp := ffill FV.nan closes
  let sh := shiftOne tmp
  let sh2 := match lastClose with
    | none => sh
    | some c =>
        match sh with
        | [] => []
        | _ :: t => FV.fin c :: t
  List.zipWith (fun a b => fvSub (fvDiv a b) (FV.fin 1)) tmp sh2

/-- Lines 136-152 of `normalize_baostock`: dedup by date, reindex to the
trading calendar when one is supplied, sort by date, and mask invalid-volume
rows (line 152). -/
def preRows (rows : List RawRow) (cal : Option (List Nat)) : List RawRow :=
  match rows with
  | [] => []
  | _ :: _ =>
      let r1 := dedupGo [] rows
      let r2 := match cal with
        | none => r1
        | some c => reindexCal c r1
      (sortByDate r2).map maskRow

/-- `BaostockNormalize.normalize_baostock` (collector.py lines 124-158):
dedup by date, reindex to the trading calendar when one is supplied, sort by
date, mask invalid-volume rows, compute `change`, re-mask `change` (line 155
re-evaluates the volume mask, which selects the same rows), and stamp the
symbol extracted from the first row onto every row. -/
def normalizeBaostock (rows : List RawRow) (cal : Option (List Nat))
    (lastClose : Option ℚ) : List BRow :=
  match rows with
  | [] => []
  | r0 :: _ =>
      let sym := r0.symbol
      let r4 := preRows rows cal
      let chs := calcChange (r4.map (·.close)) lastClose
      (r4.zip chs).map fun p =>
        { date := p.1.date, symbol := sym, open_ := p.1.open_, high := p.1.high,
          low := p.1.low, close := p.1.close, preclose := p.1.preclose,
          volume := p.1.volume,
          change := if badValB p.1.volume then FV.nan else p.2 }

/-- `BaostockNormalize1d.adjusted_price` (collector.py lines 171-204):
`factor` is the cumulative product of `close / preclose` (line 192-193;
`cumprod` skips `NaN`), and `volume` is divided by `factor`; open/high/low/
close are left as supplied. -/
def adjustedPrice (rows : List BRow) : List NRow :=
  let ratios := rows.map fun r => fvDiv r.close r.preclose
  let fs := cumprodSkipna (FV.fin 1) ratios
  (rows.zip fs).map fun p =>
    { date := p.1.date, symbol := p.1.symbol, open_ := p.1.open_,
      high := p.1.high, low := p.1.low, close := p.1.close,
      preclose := p.1.preclose, volume := fvDiv p.1.volume p.2,
      change := p.1.change, factor := p.2 }

/-- `BaostockNormalize1d.normalize` = `normalize_baostock` (with no
`last_close`) followed by `adjusted_price`; the trading calendar comes from
the external `CalendarProvider` and is a parameter here. -/
def normalize1d (rows : List RawRow) (cal : Option (List Nat)) : List NRow :=
  adjustedPrice (normalizeBaostock rows cal none)

/-! ## The incremental extender
(`BaostockNormalize1dExtend.normalize`, collector.py lines 210-244)

The archived qlib data (`self.old_qlib_data`, loaded by `D.features` with
columns open/high/low/close/volume/factor/change) is modelled as an
association list from an (uppercase) instrument name to its date-sorted,
duplicate-free rows. -/

/-- One archived row of the old qlib data (`column_list` order). -/
structure ORow where
  open_ : FV
  high : FV
  low : FV
  close : FV
  volume : FV
  factor : FV
  change : FV
deriving DecidableEq, Repr

/-- The rescale applied to one column of the rows at-or-after the splice
boundary (collector.py lines 239-243): guarded by
`pd.notna(new) and new != 0 and pd.notna(old)`; volume is divided by
`new/old`, every other column is multiplied by `old/new`. -/
def rescaleCol (isVol : Bool) (oldv newv v : FV) : FV :=
  if ¬ newv.isNan ∧ fvNeB newv (FV.fin 0) = true ∧ ¬ oldv.isNan then
    if isVol then fvDiv v (fvDiv newv oldv) else fvMul v (fvDiv oldv newv)
  else v

/-- The per-row column rescale of the splice loop (lines 238-243):
`column_list[:-1]` = open, high, low, close, volume, factor; `change` is not
rescaled.  `oldR` is `old_latest_data` (the archived row at the boundary) and
`newR` is `new_latest_data` (the first row of the sliced frame, captured
before any column is modified). -/
def spliceRow (oldR : ORow) (newR : NRow) (r : NRow) : NRow :=
  { r with
    open_ := rescaleCol false oldR.open_ newR.open_ r.open_,
    high := rescaleCol false oldR.high newR.high r.high,
    low := rescaleCol false oldR.low newR.low r.low,
    close := rescaleCol false oldR.close newR.close r.close,
    volume := rescaleCol true oldR.volume newR.volume r.volume,
    factor := rescaleCol false oldR.factor newR.factor r.factor }

/-- Lines 233-244 for a present instrument: slice to the rows at-or-after the
archive's last date (`df.loc[latest_date:]` on the sorted index), and when
more than one row remains, rescale every sliced row against the first one and
drop that first row (`df.drop(df.index[0])`; dates are unique after
normalization, so dropping the first index label is dropping the first row);
otherwise return an empty frame. -/
def extendSplice (latest : Nat) (oldLatest : ORow) (n : List NRow) : List NRow :=
  match n.filter (fun r => decide (latest ≤ r.date)) with
  | f :: r1 :: rs => (r1 :: rs).map (spliceRow oldLatest f)
  | _ => []

/-- Python `str.upper()` (instrument symbols are ASCII); `String.toUpper`
composed characterwise, in a form the kernel can evaluate. -/
def strUpper (s : String) : String := String.mk (s.data.map Char.toUpper)

/-- `BaostockNormalize1dExtend.normalize` (collector.py lines 225-244):
normalize, then look the instrument up in the archive by its uppercased
symbol; if absent return the normalized frame unchanged, else splice.
`none` models a raised exception: `df[symbol].iloc[0]` on an empty frame
(line 228) and `old_df.index[-1]` on an instrument archived with zero rows
(line 233) both raise `IndexError`. -/
def extendNormalize (od : List (String × List (Nat × ORow)))
    (cal : Option (List Nat)) (raw : List RawRow) : Option (List NRow) :=
  match normalize1d raw cal with
  | [] => none
  | r0 :: rest =>
      let symU := strUpper r0.symbol
      match od.find? (fun p => p.1 == symU) with
      | none => some (r0 :: rest)
      | some (_, oldRows) =>
          match oldRows.getLast? with
          | none => none
          | some (latest, oldLatest) =>
              some (extendSplice latest oldLatest (r0 :: rest))

/-- The rescale factor of the claim / spec §4.3 step 3, written from the
spec's words for comparison with the code:
`k_col = archivedRow[lastDate][col] / newRow[lastDate][col]`, and `k_col = 1`
when the new value at `lastDate` is zero or `NaN` or the archived value is
`NaN`. -/
def specK (oldv newv : FV) : FV :=
  if newv.isNan = true ∨ newv = FV.fin 0 ∨ oldv.isNan = true then FV.fin 1
  else fvDiv oldv newv

/-- The claim's per-row rescale, written from the spec's words for comparison
with the code: each of open, high, low, close, volume and factor of a row
strictly after `lastDate` is multiplied by its column's `k_col`. -/
def specRescaleRow (oldR : ORow) (newR : NRow) (r : NRow) : NRow :=
  { r with
    open_ := fvMul r.open_ (specK oldR.open_ newR.open_),
    high := fvMul r.high (specK oldR.high newR.high),
    low := fvMul r.low (specK oldR.low newR.low),
    close := fvMul r.close (specK oldR.close newR.close),
    volume := fvMul r.volume (specK oldR.volume newR.volume),
    factor := fvMul r.factor (specK oldR.factor newR.factor) }

/-! ## The health checker (`check_data_health.py`) -/

/-- A column's missing-data finding value: `"all"` for an entirely absent
instrument, or a `NaN` count. -/
inductive MissingVal where
  | all : MissingVal
  | cnt : Nat → MissingVal
deriving DecidableEq, Repr

/-- One `large_steps` finding (check_data_health.py lines 64-70). -/
structure LargeStep where
  col_name : String
  date : Nat
  pct_change : FV
deriving DecidableEq, Repr

/-- The per-instrument `problems` dict of `check_instrument_data`. -/
structure Problems where
  instrument : String
  missing_data : List (String × MissingVal)
  large_steps : List LargeStep
  missing_columns : List String
  missing_factor : Option String
  error : Option String
deriving DecidableEq, Repr

/-- The frame returned by `D.features` for one instrument: a date index and
named float columns (one value per date in each column). -/
structure InstDF where
  dates : List Nat
  cols : List (String × List FV)
deriving DecidableEq, Repr

/-- Column lookup by name. -/
def colGet (cols : List (String × List FV)) (name : String) : Option (List FV) :=
  (cols.find? (fun p => p.1 == name)).map (·.2)

/-- Column presence (`col in df.columns`). -/
def hasCol (cols : List (String × List FV)) (name : String) : Bool :=
  (cols.find? (fun p => p.1 == name)).isSome

/-- The rename map of check_data_health.py lines 33-43. -/
def renameCol (s : String) : String :=
  if s == "$open" then "open"
  else if s == "$close" then "close"
  else if s == "$low" then "low"
  else if s == "$high" then "high"
  else if s == "$volume" then "volume"
  else if s == "$factor" then "factor"
  else s

/-- The required fields requested from `D.features`
(check_data_health.py line 122). -/
def requiredFieldsDefault : List String :=
  ["$open", "$close", "$low", "$high", "$volume", "$factor"]

/-- The columns scanned for large steps and required presence (lines 46, 58). -/
def checkCols : List String := ["open", "high", "low", "close", "volume"]

/-- The date reported for a `large_steps` finding:
`pct_change[pct_change > threshold].index.to_list()[0][1]`, i.e. the date of
the first entry strictly exceeding the threshold (defaulting to `0` in the
unreachable case where none exceeds it although the maximum does). -/
def firstDateOver (dates : List Nat) (pct : List FV) (thr : FV) : Nat :=
  (((dates.zip pct).find? fun p => fvLtB thr p.2).map (·.1)).getD 0

/-- `check_instrument_data` (check_data_health.py lines 13-81), with the
queried frame passed in for `D.features`' result.  An empty frame reports
every requested field as entirely missing and returns immediately.  The
`except` clause is not modelled (no modelled operation raises). -/
def checkInstrumentData (instrument : String) (df : InstDF)
    (requiredFields : List String) (thrPrice thrVolume : FV)
    (missingDataNum : Nat) : Problems :=
  if df.dates.isEmpty then
    { instrument := instrument,
      missing_data := requiredFields.map (fun c => (c, MissingVal.all)),
      large_steps := [], missing_columns := [], missing_factor := none,
      error := none }
  else
    let cols := df.cols.map fun p => (renameCol p.1, p.2)
    let missingCols := checkCols.filter fun c => !(hasCol cols c)
    let missingData := cols.filterMap fun p =>
      let k := (p.2.filter (·.isNan)).length
      if missingDataNum < k then some (p.1, MissingVal.cnt k) else none
    let steps := checkCols.filterMap fun c =>
      match colGet cols c with
      | none => none
      | some vs =>
          let pct := (pctChange vs).map fvAbs
          let thr := if c == "volume" then thrVolume else thrPrice
          if fvLtB thr (fvMaxSkipna pct) then
            some { col_name := c, date := firstDateOver df.dates pct thr,
                   pct_change := fvMaxSkipna pct }
          else none
    let mf :=
      if !(hasCol cols "factor") then some "column_missing"
      else match colGet cols "factor" with
        | some vs => if vs.all (·.isNan) then some "all_nan" else none
        | none => none
    { instrument := instrument, missing_data := missingData,
      large_steps := steps, missing_columns := missingCols,
      missing_factor := mf, error := none }

/-- The aggregated summary of `DataHealthChecker.summarize_results`
(check_data_health.py lines 138-169). -/
structure Summary where
  missing_data : List (String × String × MissingVal)
  large_steps : List (String × LargeStep)
  missing_columns : List (String × List String)
  missing_factor : List (String × String)
  errors : List (String × String)
deriving DecidableEq, Repr

/-- `summarize_results`: merge per-instrument findings into the report's
categories; empty dicts/lists are falsy in Python and contribute nothing. -/
def summarizeResults (results : List Problems) : Summary :=
  results.foldl (fun s res =>
    let s := match res.error with
      | some e => { s with errors := s.errors ++ [(res.instrument, e)] }
      | none => s
    let s := if res.missing_data.isEmpty then s else
      { s with missing_data :=
          s.missing_data ++ res.missing_data.map (fun p => (res.instrument, p.1, p.2)) }
    let s := if res.large_steps.isEmpty then s else
      { s with large_steps :=
          s.large_steps ++ res.large_steps.map (fun st => (res.instrument, st)) }
    let s := if res.missing_columns.isEmpty then s else
      { s with missing_columns := s.missing_columns ++ [(res.instrument, res.missing_columns)] }
    match res.missing_factor with
      | some m => { s with missing_factor := s.missing_factor ++ [(res.instrument, m)] }
      | none => s)
    ⟨[], [], [], [], []⟩

/-! ## The remote fetcher
(`BaostockCollector.get_data_from_remote`, collector.py lines 78-98, and the
process-wide session flag `_BAOSTOCK_LOGGED_IN`, line 38) -/

/-- A response of `bs.query_history_k_data_plus`: an error code (`"0"` is
success) and the result rows (opaque payloads here). -/
structure BsResp where
  error_code : String
  data : List String
deriving DecidableEq, Repr

/-- Lines 93-98 of collector.py, for a response the query call returned
(rather than raised): a successful response with data is tagged with the
symbol; a successful response with no rows and a response with a non-success
error code both fall through to `return pd.DataFrame()`. -/
def fetchBody (symbol : String) (rs : BsResp) : List (String × String) :=
  if rs.error_code == "0" then
    if rs.data.isEmpty then [] else rs.data.map (fun r => (r, symbol))
  else []

/-- One call of `get_data_from_remote`, as a function of the session flag and
of the remote's behaviour (`Except.error` = the call raised).  Returns
`(loginPerformed, flagAfter, result)`: lines 81-84 perform `bs.login()` and
set the flag exactly when the flag is unset.  No code path clears the flag. -/
def getDataFromRemoteOnce (symbol : String) (flag : Bool)
    (remote : Except String BsResp) :
    Bool × Bool × Except String (List (String × String)) :=
  let loginPerformed := !flag
  let flag2 := if flag then flag else true
  match remote with
  | .error e => (loginPerformed, flag2, .error e)
  | .ok rs => (loginPerformed, flag2, .ok (fetchBody symbol rs))

/-- Modelled from the spec (§4.1): the retry decorator `deco_retry` of
`scripts/data_collector/utils.py`, which is not under `src/` — it "retries up
to a fixed bound (5 attempts) with the same arguments on any transient
failure" (a raised error) and "on final failure propagates the error".  A
non-raising attempt terminates the loop with its value.  The session flag is
threaded through the attempts (it is process-global in Python);
`remotes i` is the remote's behaviour on attempt `i`. -/
def decoRetryFetch (symbol : String) (remotes : Nat → Except String BsResp)
    (i : Nat) (flag : Bool) : Nat → Bool × Except String (List (String × String))
  | 0 =>
      let r := getDataFromRemoteOnce symbol flag (remotes i)
      (r.2.1, r.2.2)
  | rem + 1 =>
      match getDataFromRemoteOnce symbol flag (remotes i) with
      | (_, flag2, .error _) => decoRetryFetch symbol remotes (i + 1) flag2 rem
      | (_, flag2, .ok v) => (flag2, .ok v)

/-- The decorated `get_data_from_remote`: `BaostockCollector.retry = 5`
attempts, starting from the given session-flag state. -/
def fetchWithRetry (symbol : String) (remotes : Nat → Except String BsResp)
    (flag : Bool) : Bool × Except String (List (String × String)) :=
  decoRetryFetch symbol remotes 0 flag 4

/-! ## Basic facts about the fetcher (claims C3, C4) -/

theorem getDataFromRemoteOnce_err (symbol : String) (flag : Bool) (e : String) :
    getDataFromRemoteOnce symbol flag (.error e) =
      (!flag, if flag then flag else true, .error e) := rfl

theorem getDataFromRemoteOnce_ok (symbol : String) (flag : Bool) (rs : BsResp) :
    getDataFromRemoteOnce symbol flag (.ok rs) =
      (!flag, if flag then flag else true, .ok (fetchBody symbol rs)) := rfl

theorem fetchBody_eq_ite (symbol : String) (rs : BsResp) :
    fetchBody symbol rs =
      if (rs.error_code == "0" && !rs.data.isEmpty) = true
      then rs.data.map (fun r => (r, symbol)) else [] := by
  unfold fetchBody
  rcases h1 : rs.error_code == "0" <;> rcases h2 : rs.data.isEmpty <;> simp [h1, h2]

theorem decoRetryFetch_all_err (symbol : String)
    (remotes : Nat → Except String BsResp) :
    ∀ (rem i : Nat) (flag : Bool) (e : String),
      (∀ j, j ≤ rem → ∃ e', remotes (i + j) = .error e') →
      remotes (i + rem) = .error e →
      (decoRetryFetch symbol remotes i flag rem).2 = .error e := by
  intro rem
  induction rem with
  | zero =>
      intro i flag e _ hlast
      simp only [Nat.add_zero] at hlast
      simp [decoRetryFetch, hlast, getDataFromRemoteOnce_err]
  | succ rem ih =>
      intro i flag e hall hlast
      obtain ⟨e0, he0⟩ := hall 0 (Nat.zero_le _)
      simp only [Nat.add_zero] at he0
      have step : decoRetryFetch symbol remotes i flag (rem + 1) =
          decoRetryFetch symbol remotes (i + 1) (if flag then flag else true) rem := by
        simp [decoRetryFetch, he0, getDataFromRemoteOnce_err]
      rw [step]
      refine ih (i + 1) _ e (fun j hj => ?_) ?_
      · have := hall (j + 1) (Nat.succ_le_succ hj)
        simpa [Nat.add_assoc, Nat.add_comm 1 j] using this
      · have : i + 1 + rem = i + (rem + 1) := by omega
        rw [this]; exact hlast

theorem decoRetryFetch_first_ok (symbol : String)
    (remotes : Nat → Except String BsResp) :
    ∀ (rem i : Nat) (flag : Bool) (k : Nat) (rs : BsResp),
      k ≤ rem →
      (∀ j, j < k → ∃ e', remotes (i + j) = .error e') →
      remotes (i + k) = .ok rs →
      (decoRetryFetch symbol remotes i flag rem).2 = .ok (fetchBody symbol rs) := by
  intro rem
  induction rem with
  | zero =>
      intro i flag k rs hk _ hok
      interval_cases k
      simp only [Nat.add_zero] at hok
      simp [decoRetryFetch, hok, getDataFromRemoteOnce_ok]
  | succ rem ih =>
      intro i flag k rs hk herr hok
      cases k with
      | zero =>
          simp only [Nat.add_zero] at hok
          simp [decoRetryFetch, hok, getDataFromRemoteOnce_ok]
      | succ k =>
          obtain ⟨e0, he0⟩ := herr 0 (Nat.succ_pos _)
          simp only [Nat.add_zero] at he0
          have step : decoRetryFetch symbol remotes i flag (rem + 1) =
              decoRetryFetch symbol remotes (i + 1) (if flag then flag else true) rem := by
            simp [decoRetryFetch, he0, getDataFromRemoteOnce_err]
          rw [step]
          refine ih (i + 1) _ k rs (Nat.le_of_succ_le_succ hk) (fun j hj => ?_) ?_
          · have := herr (j + 1) (Nat.succ_lt_succ hj)
            simpa [Nat.add_assoc, Nat.add_comm 1 j] using this
          · have : i + 1 + k = i + (k + 1) := by omega
            rw [this]; exact hok

/-- The remote behaviour of the C3 counterexample: the provider returns a
non-success error code on the first attempt and would return a successful
response with a row on every later attempt. -/
def remotesCE3 : Nat → Except String BsResp := fun i =>
  if i = 0 then .ok ⟨"10004", ["row1"]⟩ else .ok ⟨"0", ["row1"]⟩

/-- C3 counterexample: a fetch whose first response carries a non-success
error code (`"10004"`) is *not* retried and no error is propagated —
`get_data_from_remote` returns an empty frame from the first attempt, even
though a retry would have obtained a successful response with data
(`remotesCE3 1`).  The provider never reported success with zero rows, yet
the result is the empty sequence, so the claim is false at this input. -/
theorem claim3_counterexample :
    (fetchWithRetry "sh.600000" remotesCE3 false).2 = .ok [] ∧
    remotesCE3 0 = .ok ⟨"10004", ["row1"]⟩ ∧
    remotesCE3 1 = .ok ⟨"0", ["row1"]⟩ := by
  refine ⟨rfl, rfl, rfl⟩

/-- C3 (amended): raised errors are retried with the same arguments up to the
fixed bound of 5 attempts — if the first `k ≤ 4` attempts raise and attempt
`k` returns a response, the result is that response's body (the tagged rows
on success with data, the empty sequence on success with zero rows *or on any
non-success error code, without further retries*) — and if all 5 attempts
raise, the error of the fifth attempt is propagated.  The retry loop itself
(`deco_retry`) is not under `src/` and is modelled from the spec. -/
theorem claim3_retry_behaviour (symbol : String)
    (remotes : Nat → Except String BsResp) (flag : Bool) (k : Nat)
    (rs : BsResp) (e : String) :
    (k ≤ 4 → (∀ j, j < k → ∃ e', remotes j = .error e') → remotes k = .ok rs →
      (fetchWithRetry symbol remotes flag).2 =
        .ok (if (rs.error_code == "0" && !rs.data.isEmpty) = true
             then rs.data.map (fun r => (r, symbol)) else [])) ∧
    ((∀ j, j ≤ 4 → ∃ e', remotes j = .error e') → remotes 4 = .error e →
      (fetchWithRetry symbol remotes flag).2 = .error e) := by
  constructor
  · intro hk herr hok
    rw [← fetchBody_eq_ite]
    exact decoRetryFetch_first_ok symbol remotes 4 0 flag k rs hk
      (by simpa using herr) (by simpa using hok)
  · intro hall hlast
    exact decoRetryFetch_all_err symbol remotes 4 0 flag e
      (by simpa using hall) (by simpa using hlast)

/-- The remote behaviour of the C3 witness, part 1: one raised network error,
then a successful response with one row. -/
def remotesW3a : Nat → Except String BsResp := fun i =>
  if i = 0 then .error "neterr" else .ok ⟨"0", ["row1"]⟩

/-- The remote behaviour of the C3 witness, part 2: every attempt raises. -/
def remotesW3b : Nat → Except String BsResp := fun _ => .error "neterr"

/-- Witness for C3 (amended): a raised error on the first attempt is retried
and the second attempt's successful data is returned; five raised errors
propagate the final error. -/
theorem claim3_retry_behaviour_witness :
    (fetchWithRetry "sh.600000" remotesW3a false).2 = .ok [("row1", "sh.600000")] ∧
    (fetchWithRetry "sh.600000" remotesW3b false).2 = .error "neterr" := by
  constructor
  · have h := (claim3_retry_behaviour "sh.600000" remotesW3a false 1
      ⟨"0", ["row1"]⟩ "neterr").1 (by omega)
      (fun j hj => ⟨"neterr", by
        have : j = 0 := by omega
        subst this; rfl⟩) rfl
    simpa using h
  · exact (claim3_retry_behaviour "sh.600000" remotesW3b false 0
      ⟨"0", []⟩ "neterr").2 (fun j _ => ⟨"neterr", rfl⟩) rfl

/-- C4 counterexample: a response indicating an authentication failure (a
non-success error code such as baostock's "user is not logged in") does *not*
clear the process-wide session flag: starting from a set flag, the flag is
still set after the attempt, so the claim's second half is false at this
input.  (Every response, of any error code, takes the same path: no code path
assigns `_BAOSTOCK_LOGGED_IN = False`.) -/
theorem claim4_counterexample :
    (getDataFromRemoteOnce "sh.600000" true (.ok ⟨"10001", []⟩)).2.1 = true ∧
    (getDataFromRemoteOnce "sh.600000" true (.ok ⟨"10001", []⟩)).2.1 ≠ false := by
  exact ⟨rfl, by decide⟩

/-- C4 (amended): before each fetch attempt, a session-establish call is
performed exactly when the process-wide session flag is unset, and the flag
is set afterwards; but the flag is *never* cleared — after any attempt, on
any response or raised error whatsoever (in particular on an authentication
failure), the flag is set, so a retry never re-establishes an invalidated
session. -/
theorem claim4_session_flag (symbol : String) (flag : Bool)
    (remote : Except String BsResp) :
    (getDataFromRemoteOnce symbol flag remote).1 = !flag ∧
    (getDataFromRemoteOnce symbol flag remote).2.1 = true := by
  rcases remote with e | rs <;> cases flag <;>
    simp [getDataFromRemoteOnce]

/-! ## Claims C9 and C10 -/

theorem maskRow_cases (y : RawRow) :
    (badValB y.volume = true ∧ maskRow y =
      { y with open_ := FV.nan, high := FV.nan, low := FV.nan, close := FV.nan,
               preclose := FV.nan, volume := FV.nan }) ∨
    (badValB y.volume = false ∧ maskRow y = y) := by
  unfold maskRow
  rcases h : badValB y.volume <;> simp [h]

/-- C9: every row of the `normalize_baostock` output whose volume is
non-positive or NaN has every numeric column except the instrument identifier
(and the date index) set to NaN — open, high, low, close, preclose, volume
and change are all NaN. -/
theorem claim9_invalid_volume_all_nan (raw : List RawRow)
    (cal : Option (List Nat)) (lastClose : Option ℚ) (r : BRow)
    (hr : r ∈ normalizeBaostock raw cal lastClose)
    (hv : fvLeB r.volume (FV.fin 0) = true ∨ r.volume.isNan = true) :
    r.open_ = FV.nan ∧ r.high = FV.nan ∧ r.low = FV.nan ∧ r.close = FV.nan ∧
    r.preclose = FV.nan ∧ r.volume = FV.nan ∧ r.change = FV.nan := by
  rcases raw with _ | ⟨r0, rtl⟩
  · simp [normalizeBaostock] at hr
  · unfold normalizeBaostock at hr
    simp only [List.mem_map] at hr
    obtain ⟨⟨x, ch⟩, hp, rfl⟩ := hr
    obtain ⟨hx, -⟩ := List.of_mem_zip hp
    simp only [preRows, List.mem_map] at hx
    obtain ⟨y, -, hy⟩ := hx
    subst hy
    rcases maskRow_cases y with ⟨hb, hm⟩ | ⟨hb, hm⟩
    · rw [hm] at hv ⊢
      simp [badValB, FV.isNan]
    · rw [hm] at hv ⊢
      exfalso
      have hb' : badValB y.volume = true := by
        rcases hv with h | h <;> simp [badValB, h]
      rw [hb'] at hb
      exact Bool.noConfusion hb

/-- The raw input of the C9 witness: a single row with zero volume. -/
def rawC9 : List RawRow :=
  [⟨1, "s", FV.fin 10, FV.fin 10, FV.fin 10, FV.fin 10, FV.fin 10, FV.fin 0⟩]

/-- Witness for C9: the zero-volume row comes out entirely NaN. -/
theorem claim9_invalid_volume_all_nan_witness :
    (⟨1, "s", FV.nan, FV.nan, FV.nan, FV.nan, FV.nan, FV.nan, FV.nan⟩ : BRow) ∈
      normalizeBaostock rawC9 none none ∧
    ((⟨1, "s", FV.nan, FV.nan, FV.nan, FV.nan, FV.nan, FV.nan, FV.nan⟩ : BRow).open_ = FV.nan ∧
     (⟨1, "s", FV.nan, FV.nan, FV.nan, FV.nan, FV.nan, FV.nan, FV.nan⟩ : BRow).high = FV.nan ∧
     (⟨1, "s", FV.nan, FV.nan, FV.nan, FV.nan, FV.nan, FV.nan, FV.nan⟩ : BRow).low = FV.nan ∧
     (⟨1, "s", FV.nan, FV.nan, FV.nan, FV.nan, FV.nan, FV.nan, FV.nan⟩ : BRow).close = FV.nan ∧
     (⟨1, "s", FV.nan, FV.nan, FV.nan, FV.nan, FV.nan, FV.nan, FV.nan⟩ : BRow).preclose = FV.nan ∧
     (⟨1, "s", FV.nan, FV.nan, FV.nan, FV.nan, FV.nan, FV.nan, FV.nan⟩ : BRow).volume = FV.nan ∧
     (⟨1, "s", FV.nan, FV.nan, FV.nan, FV.nan, FV.nan, FV.nan, FV.nan⟩ : BRow).change = FV.nan) :=
  ⟨by decide,
   claim9_invalid_volume_all_nan rawC9 none none _ (by decide) (Or.inr (by decide))⟩

/-- C10: an instrument whose archive query returns an empty frame is reported
with a `missing_data` finding of `"all"` for each of the six requested fields
and nothing else, and in the aggregated report it appears only in the
`missing_data` category. -/
theorem claim10_empty_frame_missing_all (inst : String) (thrP thrV : FV)
    (m : Nat) (df : InstDF) (hdf : df.dates = []) :
    checkInstrumentData inst df requiredFieldsDefault thrP thrV m =
      ⟨inst,
       [("$open", MissingVal.all), ("$close", MissingVal.all),
        ("$low", MissingVal.all), ("$high", MissingVal.all),
        ("$volume", MissingVal.all), ("$factor", MissingVal.all)],
       [], [], none, none⟩ ∧
    summarizeResults [checkInstrumentData inst df requiredFieldsDefault thrP thrV m] =
      ⟨[(inst, "$open", MissingVal.all), (inst, "$close", MissingVal.all),
        (inst, "$low", MissingVal.all), (inst, "$high", MissingVal.all),
        (inst, "$volume", MissingVal.all), (inst, "$factor", MissingVal.all)],
       [], [], [], []⟩ := by
  obtain ⟨ds, cs⟩ := df
  simp only at hdf
  subst hdf
  exact ⟨rfl, rfl⟩

/-- Witness for C10 at a concrete empty frame. -/
theorem claim10_empty_frame_missing_all_witness :
    checkInstrumentData "SH600000" ⟨[], []⟩ requiredFieldsDefault
        (FV.fin (1/2)) (FV.fin 3) 0 =
      ⟨"SH600000",
       [("$open", MissingVal.all), ("$close", MissingVal.all),
        ("$low", MissingVal.all), ("$high", MissingVal.all),
        ("$volume", MissingVal.all), ("$factor", MissingVal.all)],
       [], [], none, none⟩ ∧
    summarizeResults [checkInstrumentData "SH600000" ⟨[], []⟩
        requiredFieldsDefault (FV.fin (1/2)) (FV.fin 3) 0] =
      ⟨[("SH600000", "$open", MissingVal.all), ("SH600000", "$close", MissingVal.all),
        ("SH600000", "$low", MissingVal.all), ("SH600000", "$high", MissingVal.all),
        ("SH600000", "$volume", MissingVal.all), ("SH600000", "$factor", MissingVal.all)],
       [], [], [], []⟩ :=
  claim10_empty_frame_missing_all "SH600000" (FV.fin (1/2)) (FV.fin 3) 0 ⟨[], []⟩ rfl

/-! ## Claims C7 and C2 (the extender's slice behaviour) -/

/-- C7: for an instrument present in the archive, when the newly normalized
series has fewer than 2 rows at or after the archive's last date (in
particular when nothing lies strictly after it), the extension returns an
empty sequence — re-running an update for a window already covered by the
archive appends zero rows. -/
theorem claim7_covered_window_appends_nothing
    (od : List (String × List (Nat × ORow))) (cal : Option (List Nat))
    (raw : List RawRow) (nh : NRow) (nt : List NRow) (sym : String)
    (oldRows : List (Nat × ORow)) (latest : Nat) (oldLatest : ORow)
    (hn : normalize1d raw cal = nh :: nt)
    (hfind : od.find? (fun p => p.1 == strUpper nh.symbol) = some (sym, oldRows))
    (hlast : oldRows.getLast? = some (latest, oldLatest))
    (hlen : ((nh :: nt).filter (fun r => decide (latest ≤ r.date))).length < 2) :
    extendNormalize od cal raw = some [] := by
  unfold extendNormalize
  rw [hn]
  simp only [hfind, hlast]
  unfold extendSplice
  rcases hf : (nh :: nt).filter (fun r => decide (latest ≤ r.date)) with
    _ | ⟨f, _ | ⟨g, gs⟩⟩
  · rw [hf]
  · rw [hf]
  · rw [hf] at hlen
    simp at hlen
    omega

/-- The archived boundary row used by the concrete extend scenarios:
instrument SH600000, last archived date 630 (2023-06-30), close 15.0. -/
def oldLatestArch : ORow :=
  ⟨FV.fin 14, FV.fin 16, FV.fin 13, FV.fin 15, FV.fin 1000, FV.fin 2, FV.fin 0⟩

/-- A one-instrument archive ending at date 630. -/
def odArch : List (String × List (Nat × ORow)) := [("SH600000", [(630, oldLatestArch)])]

/-- Raw input fully covered by the archive: dates 629 and 630 only. -/
def rawC7 : List RawRow :=
  [⟨629, "sh600000", FV.fin 29, FV.fin 31, FV.fin 28, FV.fin 30, FV.fin 29, FV.fin 400⟩,
   ⟨630, "sh600000", FV.fin 28, FV.fin 32, FV.fin 26, FV.fin 30, FV.fin 30, FV.fin 500⟩]

/-- Witness for C7: updating a window that ends at the archive's last date
appends zero rows. -/
theorem claim7_covered_window_appends_nothing_witness :
    extendNormalize odArch none rawC7 = some [] :=
  claim7_covered_window_appends_nothing odArch none rawC7
    ⟨629, "sh600000", FV.fin 29, FV.fin 31, FV.fin 28, FV.fin 30, FV.fin 29,
      FV.fin (1160/3), FV.nan, FV.fin (30/29)⟩
    [⟨630, "sh600000", FV.fin 28, FV.fin 32, FV.fin 26, FV.fin 30, FV.fin 30,
      FV.fin (1450/3), FV.fin 0, FV.fin (30/29)⟩]
    "SH600000" [(630, oldLatestArch)] 630 oldLatestArch
    (by decide) (by decide) (by decide) (by decide)

/-- Raw input for the C2 scenario: the newly fetched window starts strictly
after the archive's last date 630 — the boundary day is absent. -/
def rawC2 : List RawRow :=
  [⟨701, "sh600000", FV.fin 30, FV.fin 33, FV.fin 29, FV.fin 31, FV.fin 30, FV.fin 600⟩,
   ⟨702, "sh600000", FV.fin 31, FV.fin 34, FV.fin 30, FV.fin 32, FV.fin 31, FV.fin 700⟩]

/-- C2 counterexample: with the boundary day absent from the new fetch, the
extension does *not* return the newly normalized series unchanged — the
normalized series has 2 rows, but the extension returns 1 row (the first
strictly-after row is consumed as the rescale basis and dropped, and the
remaining row is rescaled against it). -/
theorem claim2_counterexample :
    extendNormalize odArch none rawC2 ≠ some (normalize1d rawC2 none) ∧
    (extendNormalize odArch none rawC2).map List.length = some 1 ∧
    (normalize1d rawC2 none).length = 2 := by
  refine ⟨by decide, by decide, by decide⟩

/-- C2 (amended): for an instrument present in the archive, when the newly
normalized series contains no row at the archive's last date, the extension
does not return the series unchanged: rows before `lastDate` are discarded,
and if at least two rows lie strictly after `lastDate`, the *first* of them
is used as the rescale basis against the archived boundary row (a mismatched
rescale across different dates), is dropped from the output, and only the
remaining rescaled rows are returned. -/
theorem claim2_boundary_absent_not_unchanged
    (od : List (String × List (Nat × ORow))) (cal : Option (List Nat))
    (raw : List RawRow) (nh : NRow) (nt : List NRow) (sym : String)
    (oldRows : List (Nat × ORow)) (latest : Nat) (oldLatest : ORow)
    (f : NRow) (rest : List NRow)
    (hn : normalize1d raw cal = nh :: nt)
    (hfind : od.find? (fun p => p.1 == strUpper nh.symbol) = some (sym, oldRows))
    (hlast : oldRows.getLast? = some (latest, oldLatest))
    (hno : ∀ r ∈ nh :: nt, r.date ≠ latest)
    (hdf : (nh :: nt).filter (fun r => decide (latest < r.date)) = f :: rest)
    (hne : rest ≠ []) :
    extendNormalize od cal raw = some (rest.map (spliceRow oldLatest f)) := by
  have hcong : (nh :: nt).filter (fun r => decide (latest ≤ r.date)) =
      (nh :: nt).filter (fun r => decide (latest < r.date)) := by
    apply List.filter_congr
    intro r hr
    have hd := hno r hr
    by_cases h : latest < r.date
    · simp [h, Nat.le_of_lt h]
    · have h2 : ¬ latest ≤ r.date := by omega
      simp [h, h2]
  unfold extendNormalize
  rw [hn]
  simp only [hfind, hlast]
  unfold extendSplice
  rw [hcong, hdf]
  rcases rest with _ | ⟨g, gs⟩
  · exact absurd rfl hne
  · rfl

/-- Witness for C2 (amended): on the concrete scenario, the row of date 701
is consumed as the rescale basis and only the rescaled 702 row is returned. -/
theorem claim2_boundary_absent_not_unchanged_witness :
    extendNormalize odArch none rawC2 =
      some ([(⟨702, "sh600000", FV.fin 31, FV.fin 34, FV.fin 30, FV.fin 32,
               FV.fin 31, FV.fin (2625/4), FV.fin (1/31), FV.fin (16/15)⟩ : NRow)].map
        (spliceRow oldLatestArch
          ⟨701, "sh600000", FV.fin 30, FV.fin 33, FV.fin 29, FV.fin 31,
           FV.fin 30, FV.fin (18000/31), FV.nan, FV.fin (31/30)⟩)) :=
  claim2_boundary_absent_not_unchanged odArch none rawC2
    ⟨701, "sh600000", FV.fin 30, FV.fin 33, FV.fin 29, FV.fin 31, FV.fin 30,
      FV.fin (18000/31), FV.nan, FV.fin (31/30)⟩
    [⟨702, "sh600000", FV.fin 31, FV.fin 34, FV.fin 30, FV.fin 32, FV.fin 31,
      FV.fin (2625/4), FV.fin (1/31), FV.fin (16/15)⟩]
    "SH600000" [(630, oldLatestArch)] 630 oldLatestArch
    ⟨701, "sh600000", FV.fin 30, FV.fin 33, FV.fin 29, FV.fin 31, FV.fin 30,
      FV.fin (18000/31), FV.nan, FV.fin (31/30)⟩
    [⟨702, "sh600000", FV.fin 31, FV.fin 34, FV.fin 30, FV.fin 32, FV.fin 31,
      FV.fin (2625/4), FV.fin (1/31), FV.fin (16/15)⟩]
    (by decide) (by decide) (by decide) (by decide) (by decide) (by decide)

/-! ## Claim C6 (large single-day steps) -/

theorem find_filterMap_by_name (mk : String → Option LargeStep)
    (hmk : ∀ c s, mk c = some s → s.col_name = c) :
    ∀ (cs : List String), cs.Nodup → ∀ col, col ∈ cs →
      (cs.filterMap mk).find? (fun s => s.col_name == col) = mk col := by
  intro cs
  induction cs with
  | nil => intro _ col hcol; cases hcol
  | cons c cs ih =>
      intro hnd col hcol
      have hc : c ∉ cs := (List.nodup_cons.mp hnd).1
      have hnd' : cs.Nodup := (List.nodup_cons.mp hnd).2
      rcases List.mem_cons.mp hcol with rfl | hmem
      · rcases hm : mk col with _ | s
        · rw [List.filterMap_cons_none hm]
          rw [List.find?_eq_none]
          intro s hs
          obtain ⟨a, ha, hmk2⟩ := List.mem_filterMap.mp hs
          have hsa : s.col_name = a := hmk a s hmk2
          simp only [hsa]
          intro hEq
          have hac : a = col := by simpa using hEq
          exact hc (hac ▸ ha)
        · rw [List.filterMap_cons_some hm]
          have : s.col_name = col := hmk col s hm
          simp [List.find?, this]
      · have hne : col ≠ c := fun h => hc (h ▸ hmem)
        rcases hm : mk c with _ | s
        · rw [List.filterMap_cons_none hm]
          exact ih hnd' col hmem
        · rw [List.filterMap_cons_some hm]
          have hcn : s.col_name = c := hmk c s hm
          have : (s.col_name == col) = false := by
            simp [hcn]
            exact fun h => hne h.symm
          simp only [List.find?, this]
          exact ih hnd' col hmem

/-- C6: for each of open/high/low/close/volume present in the checked frame,
`check_instrument_data` produces a `large_steps` finding for that column if
and only if the maximum absolute day-over-day percentage change — computed
with `pct_change(fill_method=None)`, i.e. without forward-filling, and with
leading/undefined differences (`NaN`) non-triggering — strictly exceeds the
column's threshold (the volume threshold for `volume`, default 3.0, the price
threshold for the others, default 0.5); the finding reports the first date
whose change exceeds the threshold together with the maximum as the
magnitude. -/
theorem claim6_large_steps_iff (inst : String) (df : InstDF)
    (reqF : List String) (thrP thrV : FV) (m : Nat) (col : String)
    (vs : List FV)
    (hne : df.dates.isEmpty = false)
    (hcol : col ∈ checkCols)
    (hvs : colGet (df.cols.map fun p => (renameCol p.1, p.2)) col = some vs) :
    (checkInstrumentData inst df reqF thrP thrV m).large_steps.find?
        (fun s => s.col_name == col) =
      (if fvLtB (if col == "volume" then thrV else thrP)
            (fvMaxSkipna ((pctChange vs).map fvAbs)) = true
       then some ⟨col,
              firstDateOver df.dates ((pctChange vs).map fvAbs)
                (if col == "volume" then thrV else thrP),
              fvMaxSkipna ((pctChange vs).map fvAbs)⟩
       else none) := by
  unfold checkInstrumentData
  rw [hne]
  simp only [Bool.false_eq_true, if_false]
  have hfind := find_filterMap_by_name
    (fun c => match colGet (df.cols.map fun p => (renameCol p.1, p.2)) c with
      | none => none
      | some vs0 =>
          if fvLtB (if c == "volume" then thrV else thrP)
              (fvMaxSkipna ((pctChange vs0).map fvAbs)) then
            some { col_name := c,
                   date := firstDateOver df.dates ((pctChange vs0).map fvAbs)
                     (if c == "volume" then thrV else thrP),
                   pct_change := fvMaxSkipna ((pctChange vs0).map fvAbs) }
          else none)
    (by
      intro c s hs
      dsimp only at hs
      rcases h : colGet (df.cols.map fun p => (renameCol p.1, p.2)) c with _ | vs0
      · rw [h] at hs; cases hs
      · rw [h] at hs
        dsimp only at hs
        by_cases hlt : fvLtB (if c == "volume" then thrV else thrP)
            (fvMaxSkipna ((pctChange vs0).map fvAbs)) = true
        · rw [if_pos hlt] at hs
          cases hs; rfl
        · rw [if_neg hlt] at hs; cases hs)
    checkCols (by decide) col hcol
  rw [hfind]
  dsimp only
  rw [hvs]

/-- The frame of the C6 witness: two days with `close` moving from 10.0 to
16.0 (a 60% change). -/
def dfW6 : InstDF := ⟨[1, 2], [("$close", [FV.fin 10, FV.fin 16])]⟩

/-- Witness for C6 at the spec's concrete scenario: with the default price
threshold 0.5, a close move from 10.0 to 16.0 yields a `large_steps` finding
for `close` at that date with `pct_change = 0.6`, and with a threshold of 1.0
it yields none. -/
theorem claim6_large_steps_iff_witness :
    (checkInstrumentData "SH600000" dfW6 requiredFieldsDefault
        (FV.fin (1/2)) (FV.fin 3) 0).large_steps.find?
        (fun s => s.col_name == "close") =
      some ⟨"close", 2, FV.fin (3/5)⟩ ∧
    (checkInstrumentData "SH600000" dfW6 requiredFieldsDefault
        (FV.fin 1) (FV.fin 3) 0).large_steps.find?
        (fun s => s.col_name == "close") = none := by
  constructor
  · have h := claim6_large_steps_iff "SH600000" dfW6 requiredFieldsDefault
      (FV.fin (1/2)) (FV.fin 3) 0 "close" [FV.fin 10, FV.fin 16]
      (by decide) (by decide) (by decide)
    rw [h]
    decide
  · have h := claim6_large_steps_iff "SH600000" dfW6 requiredFieldsDefault
      (FV.fin 1) (FV.fin 3) 0 "close" [FV.fin 10, FV.fin 16]
      (by decide) (by decide) (by decide)
    rw [h]
    decide

/-! ## Claim C8 (the change column) -/

theorem ffill_length (a : FV) (l : List FV) : (ffill a l).length = l.length := by
  induction l generalizing a with
  | nil => rfl
  | cons x xs ih =>
      unfold ffill
      split <;> simp [ih]

theorem ffill_get_of_not_nan (a : FV) (l : List FV) (i : Nat)
    (hi : i < l.length) (hb : i < (ffill a l).length)
    (hnn : (l[i]).isNan = false) : (ffill a l)[i] = l[i] := by
  induction l generalizing a i with
  | nil => cases hi
  | cons x xs ih =>
      cases i with
      | zero =>
          simp only [List.getElem_cons_zero] at hnn ⊢
          unfold ffill
          simp [hnn]
      | succ j =>
          have hj : j < xs.length := by simpa using hi
          simp only [List.getElem_cons_succ] at hnn ⊢
          unfold ffill
          split
          · simpa using ih a j hj (by simpa [ffill_length] using hj) hnn
          · simpa using ih x j hj (by simpa [ffill_length] using hj) hnn

theorem calcChange_length (cs : List FV) (lc : Option ℚ) :
    (calcChange cs lc).length = cs.length := by
  unfold calcChange shiftOne
  rcases cs with _ | ⟨c, cs⟩
  · cases lc <;> rfl
  · cases lc <;>
      simp [List.length_zipWith, ffill_length, List.length_dropLast]

theorem calcChange_get_succ (cs : List FV) (lc : Option ℚ) (t : Nat)
    (hb : t + 1 < (calcChange cs lc).length)
    (hf1 : t + 1 < (ffill FV.nan cs).length)
    (hf0 : t < (ffill FV.nan cs).length) :
    (calcChange cs lc)[t+1] =
      fvSub (fvDiv (ffill FV.nan cs)[t+1] (ffill FV.nan cs)[t]) (FV.fin 1) := by
  unfold calcChange shiftOne
  rcases lc with _ | c
  · simp only []
    rw [List.getElem_zipWith]
    congr 1
    rw [List.getElem_cons_succ, List.getElem_dropLast]
  · simp only []
    rw [List.getElem_zipWith]
    congr 1
    rw [List.getElem_cons_succ, List.getElem_dropLast]

theorem calcChange_get_zero (cs : List FV) (lc : Option ℚ)
    (hb : 0 < (calcChange cs lc).length)
    (hf : 0 < (ffill FV.nan cs).length) :
    (calcChange cs lc)[0] =
      fvSub (fvDiv (ffill FV.nan cs)[0]
        (match lc with | none => FV.nan | some c => FV.fin c)) (FV.fin 1) := by
  unfold calcChange shiftOne
  rcases lc with _ | c
  · simp only []
    rw [List.getElem_zipWith]
    simp
  · simp only []
    rw [List.getElem_zipWith]
    simp

theorem normalizeBaostock_length (raw : List RawRow) (cal : Option (List Nat))
    (lc : Option ℚ) :
    (normalizeBaostock raw cal lc).length = (preRows raw cal).length := by
  rcases raw with _ | ⟨r0, rtl⟩
  · rfl
  · unfold normalizeBaostock
    simp [List.length_zip, calcChange_length]

theorem normalizeBaostock_get (raw : List RawRow) (cal : Option (List Nat))
    (lc : Option ℚ) (r0 : RawRow) (rtl : List RawRow)
    (hraw : raw = r0 :: rtl) (i : Nat)
    (hb : i < (normalizeBaostock raw cal lc).length)
    (hp : i < (preRows raw cal).length)
    (hc : i < (calcChange ((preRows raw cal).map (·.close)) lc).length) :
    (normalizeBaostock raw cal lc)[i] =
      { date := (preRows raw cal)[i].date, symbol := r0.symbol,
        open_ := (preRows raw cal)[i].open_, high := (preRows raw cal)[i].high,
        low := (preRows raw cal)[i].low, close := (preRows raw cal)[i].close,
        preclose := (preRows raw cal)[i].preclose,
        volume := (preRows raw cal)[i].volume,
        change := if badValB (preRows raw cal)[i].volume then FV.nan
                  else (calcChange ((preRows raw cal).map (·.close)) lc)[i] } := by
  subst hraw
  conv_lhs => unfold normalizeBaostock
  simp only []
  rw [List.getElem_map, List.getElem_zip]

/-- The raw input of the C8 counterexample: a suspended (zero-volume) day
between two valid days. -/
def rawC8 : List RawRow :=
  [⟨1, "s", FV.fin 10, FV.fin 10, FV.fin 10, FV.fin 10, FV.fin 10, FV.fin 100⟩,
   ⟨2, "s", FV.fin 20, FV.fin 20, FV.fin 20, FV.fin 20, FV.fin 10, FV.fin 0⟩,
   ⟨3, "s", FV.fin 30, FV.fin 30, FV.fin 30, FV.fin 30, FV.fin 10, FV.fin 100⟩]

/-- C8 counterexample: `calc_change` forward-fills `close` before shifting,
so across a suspended day the divisor is the last valid close, not the close
of the immediately preceding row.  Here the normalized closes are
`[10, NaN, 30]` and the change of the third row is `30/10 - 1 = 2`, whereas
the claim's formula `close[2]/close[1] - 1 = 30/NaN - 1` is `NaN`. -/
theorem claim8_counterexample :
    (normalizeBaostock rawC8 none none).map (·.close) =
      [FV.fin 10, FV.nan, FV.fin 30] ∧
    (normalizeBaostock rawC8 none none).map (·.change) =
      [FV.nan, FV.nan, FV.fin 2] ∧
    fvSub (fvDiv (FV.fin 30) FV.nan) (FV.fin 1) = FV.nan ∧
    (FV.fin 2 : FV) ≠ FV.nan := by
  refine ⟨by decide, by decide, by decide, by decide⟩

theorem fvDiv_nan_right (x : FV) : fvDiv x FV.nan = FV.nan := by
  cases x <;> rfl

/-- C8 (amended): in the `normalize_baostock` output, for every index `t+1`
whose row has valid volume and whose close — and the close of the
*immediately preceding* row — is non-NaN,
`change[t+1] = close[t+1] / close[t] - 1`; when the preceding close is NaN
the code instead divides by the forward-filled (last valid) close, as the
counterexample shows.  For the first row, `change[0] = close[0] /
priorCloseHint - 1` when the hint is supplied, and NaN otherwise. -/
theorem claim8_change_formula (raw : List RawRow) (cal : Option (List Nat))
    (lc : Option ℚ) :
    (∀ t (h1 : t + 1 < (normalizeBaostock raw cal lc).length),
      badValB ((normalizeBaostock raw cal lc)[t+1]).volume = false →
      (((normalizeBaostock raw cal lc)[t]).close).isNan = false →
      (((normalizeBaostock raw cal lc)[t+1]).close).isNan = false →
      ((normalizeBaostock raw cal lc)[t+1]).change =
        fvSub (fvDiv ((normalizeBaostock raw cal lc)[t+1]).close
          ((normalizeBaostock raw cal lc)[t]).close) (FV.fin 1)) ∧
    (∀ h0 : 0 < (normalizeBaostock raw cal lc).length,
      badValB ((normalizeBaostock raw cal lc)[0]).volume = false →
      (((normalizeBaostock raw cal lc)[0]).close).isNan = false →
      ((normalizeBaostock raw cal lc)[0]).change =
        lc.elim FV.nan (fun c =>
          fvSub (fvDiv ((normalizeBaostock raw cal lc)[0]).close (FV.fin c))
            (FV.fin 1))) := by
  rcases hraw : raw with _ | ⟨r0, rtl⟩
  · constructor
    · intro t h1
      simp [normalizeBaostock] at h1
    · intro h0
      simp [normalizeBaostock] at h0
  · rw [← hraw]
    have hlen := normalizeBaostock_length raw cal lc
    have hcs : ((preRows raw cal).map (·.close)).length = (preRows raw cal).length :=
      List.length_map _ _
    have hchl : (calcChange ((preRows raw cal).map (·.close)) lc).length =
        (preRows raw cal).length := by rw [calcChange_length, hcs]
    have hffl : (ffill FV.nan ((preRows raw cal).map (·.close))).length =
        (preRows raw cal).length := by rw [ffill_length, hcs]
    constructor
    · intro t h1 hv hc0 hc1
      have hp1 : t + 1 < (preRows raw cal).length := by omega
      have hp0 : t < (preRows raw cal).length := by omega
      have hch1 : t + 1 < (calcChange ((preRows raw cal).map (·.close)) lc).length := by
        omega
      have hg1 := normalizeBaostock_get raw cal lc r0 rtl hraw (t + 1) h1 hp1 hch1
      have hg0 := normalizeBaostock_get raw cal lc r0 rtl hraw t (by omega) hp0 (by omega)
      rw [hg1] at hv hc1 ⊢
      rw [hg0] at hc0 ⊢
      simp only at hv hc0 hc1 ⊢
      rw [hv]
      simp only [Bool.false_eq_true, if_false]
      have hget := calcChange_get_succ ((preRows raw cal).map (·.close)) lc t
        (by omega) (by omega) (by omega)
      rw [hget]
      have e1 : (ffill FV.nan ((preRows raw cal).map (·.close)))[t+1] =
          ((preRows raw cal).map (·.close))[t+1] :=
        ffill_get_of_not_nan _ _ _ (by omega) (by omega)
          (by rw [List.getElem_map]; exact hc1)
      have e0 : (ffill FV.nan ((preRows raw cal).map (·.close)))[t] =
          ((preRows raw cal).map (·.close))[t] :=
        ffill_get_of_not_nan _ _ _ (by omega) (by omega)
          (by rw [List.getElem_map]; exact hc0)
      rw [e1, e0, List.getElem_map, List.getElem_map]
    · intro h0 hv hc
      have hp0 : 0 < (preRows raw cal).length := by omega
      have hg0 := normalizeBaostock_get raw cal lc r0 rtl hraw 0 h0 hp0 (by omega)
      simp only [hg0] at hv hc ⊢
      rw [hv]
      simp only [Bool.false_eq_true, if_false]
      have hget := calcChange_get_zero ((preRows raw cal).map (·.close)) lc
        (by omega) (by omega)
      rw [hget]
      have e0 : (ffill FV.nan ((preRows raw cal).map (·.close)))[0] =
          ((preRows raw cal).map (·.close))[0] :=
        ffill_get_of_not_nan _ _ _ (by omega) (by omega)
          (by rw [List.getElem_map]; exact hc)
      rw [e0, List.getElem_map]
      rcases lc with _ | c
      · simp [Option.elim, fvDiv_nan_right, fvSub]
      · simp [Option.elim]

/-- The raw input of the C8 witness: three valid days, used with a prior
close hint of 8. -/
def rawW8 : List RawRow :=
  [⟨1, "s", FV.fin 10, FV.fin 10, FV.fin 10, FV.fin 10, FV.fin 10, FV.fin 100⟩,
   ⟨2, "s", FV.fin 20, FV.fin 20, FV.fin 20, FV.fin 20, FV.fin 10, FV.fin 100⟩,
   ⟨3, "s", FV.fin 30, FV.fin 30, FV.fin 30, FV.fin 30, FV.fin 10, FV.fin 100⟩]

/-- Witness for C8 (amended): with closes 10, 20, 30 and hint 8,
`change = [10/8 - 1, 20/10 - 1, 30/20 - 1] = [1/4, 1, 1/2]`. -/
theorem claim8_change_formula_witness :
    ((normalizeBaostock rawW8 none (some 8)).getD 2
      ⟨0, "", FV.nan, FV.nan, FV.nan, FV.nan, FV.nan, FV.nan, FV.nan⟩).change =
      FV.fin (1/2) ∧
    ((normalizeBaostock rawW8 none (some 8)).getD 0
      ⟨0, "", FV.nan, FV.nan, FV.nan, FV.nan, FV.nan, FV.nan, FV.nan⟩).change =
      FV.fin (1/4) := by
  have hmap : normalizeBaostock rawW8 none (some 8) =
      [⟨1, "s", FV.fin 10, FV.fin 10, FV.fin 10, FV.fin 10, FV.fin 10,
        FV.fin 100, FV.fin (1/4)⟩,
       ⟨2, "s", FV.fin 20, FV.fin 20, FV.fin 20, FV.fin 20, FV.fin 10,
        FV.fin 100, FV.fin 1⟩,
       ⟨3, "s", FV.fin 30, FV.fin 30, FV.fin 30, FV.fin 30, FV.fin 10,
        FV.fin 100, FV.fin (1/2)⟩] := by decide
  have hlen : (normalizeBaostock rawW8 none (some 8)).length = 3 := by decide
  have h1 : 1 + 1 < (normalizeBaostock rawW8 none (some 8)).length := by omega
  have h0 : 0 < (normalizeBaostock rawW8 none (some 8)).length := by omega
  have H := claim8_change_formula rawW8 none (some 8)
  have hA := H.1 1 h1
    (by simp only [hmap, List.getElem_cons_succ, List.getElem_cons_zero]; decide)
    (by simp only [hmap, List.getElem_cons_succ, List.getElem_cons_zero]; decide)
    (by simp only [hmap, List.getElem_cons_succ, List.getElem_cons_zero]; decide)
  have hB := H.2 h0
    (by simp only [hmap, List.getElem_cons_succ, List.getElem_cons_zero]; decide)
    (by simp only [hmap, List.getElem_cons_succ, List.getElem_cons_zero]; decide)
  constructor
  · rw [List.getD_eq_getElem _ _ (by omega), hA]
    simp only [hmap, List.getElem_cons_succ, List.getElem_cons_zero]
    decide
  · rw [List.getD_eq_getElem _ _ (by omega), hB]
    simp only [hmap, List.getElem_cons_succ, List.getElem_cons_zero]
    decide

/-! ## Claim C5 (the adjustment factor) -/

/-- The raw input of the C5 counterexample: a single row with positive volume
and a zero close. -/
def rawC5 : List RawRow :=
  [⟨1, "s", FV.fin 10, FV.fin 10, FV.fin 10, FV.fin 0, FV.fin 10, FV.fin 100⟩]

/-- C5 counterexample: a row with valid positive volume and close 0 gets
`factor = (0/10).cumprod() = 0`, and its output volume `100 / 0 = +inf` is
non-NaN and strictly positive, so the normalized row violates the claimed
invariant (`factor` is zero on a row whose volume is non-NaN and positive). -/
theorem claim5_counterexample :
    (normalize1d rawC5 none).map (fun r => (r.volume, r.factor)) =
      [(FV.inf, FV.fin 0)] ∧
    FV.inf.isNan = false ∧ fvLtB (FV.fin 0) FV.inf = true ∧
    (FV.fin 0 : FV) ≠ FV.nan := by
  refine ⟨by decide, by decide, by decide, by decide⟩

/-- A finite strictly positive float value. -/
def posFin (v : FV) : Prop := ∃ q : ℚ, v = FV.fin q ∧ 0 < q

theorem posFin_not_bad {v : FV} (h : posFin v) : badValB v = false := by
  obtain ⟨q, rfl, hq⟩ := h
  simp [badValB, fvLeB, FV.isNan]
  linarith

theorem mem_dedupGo : ∀ (l : List RawRow) (seen : List Nat) (x : RawRow),
    x ∈ dedupGo seen l → x ∈ l := by
  intro l
  induction l with
  | nil => intro seen x h; simp [dedupGo] at h
  | cons y ys ih =>
      intro seen x h
      unfold dedupGo at h
      split at h
      · exact List.mem_cons_of_mem _ (ih _ x h)
      · rcases List.mem_cons.mp h with rfl | h2
        · exact List.mem_cons_self _ _
        · exact List.mem_cons_of_mem _ (ih _ x h2)

theorem mem_reindexCal (c : List Nat) (l : List RawRow) (x : RawRow)
    (hx : x ∈ reindexCal c l) : x ∈ l ∨ ∃ d, x = nanRow d := by
  rcases l with _ | ⟨y, ys⟩
  · simp [reindexCal] at hx
  · unfold reindexCal at hx
    simp only [List.mem_map] at hx
    obtain ⟨d, -, hd⟩ := hx
    rcases hfind : (y :: ys).find? (fun r => r.date == d) with _ | r
    · rw [hfind] at hd
      exact Or.inr ⟨d, hd.symm⟩
    · rw [hfind] at hd
      exact Or.inl (hd ▸ List.mem_of_find?_eq_some hfind)

theorem mem_preRows (rows : List RawRow) (cal : Option (List Nat)) (x : RawRow)
    (hx : x ∈ preRows rows cal) :
    (∃ y ∈ rows, x = maskRow y) ∨ ∃ d, x = maskRow (nanRow d) := by
  rcases rows with _ | ⟨r0, rtl⟩
  · simp [preRows] at hx
  · unfold preRows at hx
    simp only [List.mem_map] at hx
    obtain ⟨y, hy, hxy⟩ := hx
    unfold sortByDate at hy
    rw [List.mem_insertionSort] at hy
    rcases cal with _ | c
    · exact Or.inl ⟨y, mem_dedupGo _ _ _ hy, hxy.symm⟩
    · rcases mem_reindexCal c _ y hy with h | ⟨d, rfl⟩
      · exact Or.inl ⟨y, mem_dedupGo _ _ _ h, hxy.symm⟩
      · exact Or.inr ⟨d, hxy.symm⟩

/-- The row invariant carried through the pipeline for C5: either the row is
fully valid (finite positive close, preclose and volume) or it is an
invalidated row (NaN close and volume). -/
def rowOk (c p v : FV) : Prop :=
  (posFin c ∧ posFin p ∧ posFin v) ∨ (c = FV.nan ∧ v = FV.nan)

theorem preRows_rowOk (rows : List RawRow) (cal : Option (List Nat))
    (hpos : ∀ r ∈ rows, posFin r.close ∧ posFin r.preclose ∧ posFin r.volume) :
    ∀ x ∈ preRows rows cal, rowOk x.close x.preclose x.volume := by
  intro x hx
  rcases mem_preRows rows cal x hx with ⟨y, hy, rfl⟩ | ⟨d, rfl⟩
  · have h := hpos y hy
    have hb : badValB y.volume = false := posFin_not_bad h.2.2
    rcases maskRow_cases y with ⟨hb2, -⟩ | ⟨-, hm⟩
    · rw [hb2] at hb; cases hb
    · rw [hm]; exact Or.inl h
  · rcases maskRow_cases (nanRow d) with ⟨-, hm⟩ | ⟨hb, -⟩
    · rw [hm]; exact Or.inr ⟨rfl, rfl⟩
    · simp [badValB, nanRow, FV.isNan] at hb

theorem normalizeBaostock_rowOk (raw : List RawRow) (cal : Option (List Nat))
    (lc : Option ℚ)
    (hpos : ∀ r ∈ raw, posFin r.close ∧ posFin r.preclose ∧ posFin r.volume) :
    ∀ b ∈ normalizeBaostock raw cal lc, rowOk b.close b.preclose b.volume := by
  intro b hb
  rcases hraw : raw with _ | ⟨r0, rtl⟩
  · rw [hraw] at hb; simp [normalizeBaostock] at hb
  · rw [hraw] at hb
    unfold normalizeBaostock at hb
    simp only [List.mem_map] at hb
    obtain ⟨⟨x, ch⟩, hp, rfl⟩ := hb
    obtain ⟨hx, -⟩ := List.of_mem_zip hp
    have := preRows_rowOk raw cal hpos x (hraw ▸ hx)
    simpa [rowOk] using this

theorem factor_pos_aux : ∀ (l : List BRow) (a : ℚ), 0 < a →
    (∀ x ∈ l, rowOk x.close x.preclose x.volume) →
    ∀ p ∈ l.zip (cumprodSkipna (FV.fin a)
        (l.map (fun r => fvDiv r.close r.preclose))),
      posFin p.1.volume → ∃ q : ℚ, 0 < q ∧ p.2 = FV.fin q := by
  intro l
  induction l with
  | nil => intro a _ _ p hp; simp at hp
  | cons x l ih =>
      intro a ha hok p hp
      rcases hok x (List.mem_cons_self _ _) with ⟨⟨qc, hc, hcpos⟩, ⟨qp, hpc, hppos⟩, -⟩ |
        ⟨hcn, hvn⟩
      · have hratio : fvDiv x.close x.preclose = FV.fin (qc / qp) := by
          rw [hc, hpc]
          simp [fvDiv]
          intro h0
          exact absurd h0 (ne_of_gt hppos)
        rw [List.map_cons] at hp
        rw [hratio] at hp
        have hnn : (FV.fin (qc / qp)).isNan = false := rfl
        rw [cumprodSkipna] at hp
        simp only [hnn, Bool.false_eq_true, if_false] at hp
        have hmul : fvMul (FV.fin a) (FV.fin (qc / qp)) = FV.fin (a * (qc / qp)) := rfl
        rw [hmul] at hp
        have hpos' : 0 < a * (qc / qp) := mul_pos ha (div_pos hcpos hppos)
        rw [List.zip_cons_cons] at hp
        rcases List.mem_cons.mp hp with rfl | hmem
        · intro _
          exact ⟨a * (qc / qp), hpos', rfl⟩
        · exact ih (a * (qc / qp)) hpos'
            (fun y hy => hok y (List.mem_cons_of_mem _ hy)) p hmem
      · have hratio : fvDiv x.close x.preclose = FV.nan := by
          rw [hcn]; rfl
        rw [List.map_cons, hratio] at hp
        rw [cumprodSkipna] at hp
        simp only [FV.isNan, if_true] at hp
        rw [List.zip_cons_cons] at hp
        rcases List.mem_cons.mp hp with rfl | hmem
        · intro hv
          obtain ⟨q, hq, -⟩ := hv
          rw [hvn] at hq
          cases hq
        · exact ih a ha (fun y hy => hok y (List.mem_cons_of_mem _ hy)) p hmem

/-- C5 (amended): when every raw input row has finite, strictly positive
close, preclose and volume, every normalized row whose volume is non-NaN and
strictly positive has a factor that is a finite positive value — in
particular neither NaN nor zero.  The input hypothesis is necessary: the
counterexample shows a valid-volume row with close 0 produces `factor = 0`
(and a NaN preclose on a valid row similarly produces a NaN factor). -/
theorem claim5_factor_not_nan_or_zero (raw : List RawRow)
    (cal : Option (List Nat))
    (hpos : ∀ r ∈ raw, posFin r.close ∧ posFin r.preclose ∧ posFin r.volume)
    (out : NRow) (hout : out ∈ normalize1d raw cal)
    (h1 : out.volume.isNan = false) (h2 : fvLtB (FV.fin 0) out.volume = true) :
    out.factor ≠ FV.nan ∧ out.factor ≠ FV.fin 0 := by
  unfold normalize1d adjustedPrice at hout
  simp only [List.mem_map] at hout
  obtain ⟨⟨r, f⟩, hp, rfl⟩ := hout
  simp only at h1 h2 ⊢
  have hok := normalizeBaostock_rowOk raw cal none hpos
  obtain ⟨hr, -⟩ := List.of_mem_zip hp
  rcases hok r hr with hvalid | ⟨-, hvn⟩
  · obtain ⟨q, hq, hf⟩ := factor_pos_aux (normalizeBaostock raw cal none) 1
      one_pos hok (r, f) hp hvalid.2.2
    have hf2 : f = FV.fin q := hf
    rw [hf2]
    constructor
    · intro h; cases h
    · intro h
      rw [FV.fin.injEq] at h
      exact absurd h (ne_of_gt hq)
  · rw [hvn] at h1
    have : fvDiv FV.nan f = FV.nan := rfl
    rw [this] at h1
    cases h1

/-- The raw input of the C5 witness: the spec's 2:1-split scenario — closes
10, 10, 20 with preclose 10 on the split day, giving factors 1, 1, 2 and the
split day's volume divided by 2. -/
def rawC5w : List RawRow :=
  [⟨103, "SH600000", FV.fin 10, FV.fin 10, FV.fin 10, FV.fin 10, FV.fin 10, FV.fin 100⟩,
   ⟨104, "SH600000", FV.fin 10, FV.fin 10, FV.fin 10, FV.fin 10, FV.fin 10, FV.fin 100⟩,
   ⟨105, "SH600000", FV.fin 10, FV.fin 10, FV.fin 10, FV.fin 20, FV.fin 10, FV.fin 100⟩]

/-- Witness for C5 (amended): the split-day row of the concrete scenario has
positive non-NaN volume (100/2 = 50) and its factor 2 is neither NaN nor
zero. -/
theorem claim5_factor_not_nan_or_zero_witness :
    ((⟨105, "SH600000", FV.fin 10, FV.fin 10, FV.fin 10, FV.fin 20, FV.fin 10,
        FV.fin 50, FV.fin 1, FV.fin 2⟩ : NRow) ∈ normalize1d rawC5w none) ∧
    ((⟨105, "SH600000", FV.fin 10, FV.fin 10, FV.fin 10, FV.fin 20, FV.fin 10,
        FV.fin 50, FV.fin 1, FV.fin 2⟩ : NRow).factor ≠ FV.nan ∧
     (⟨105, "SH600000", FV.fin 10, FV.fin 10, FV.fin 10, FV.fin 20, FV.fin 10,
        FV.fin 50, FV.fin 1, FV.fin 2⟩ : NRow).factor ≠ FV.fin 0) := by
  constructor
  · decide
  · refine claim5_factor_not_nan_or_zero rawC5w none ?_ _ (by decide) (by decide) (by decide)
    intro r hr
    simp only [rawC5w, List.mem_cons, List.not_mem_nil, or_false] at hr
    rcases hr with rfl | rfl | rfl
    · exact ⟨⟨10, rfl, by norm_num⟩, ⟨10, rfl, by norm_num⟩, ⟨100, rfl, by norm_num⟩⟩
    · exact ⟨⟨10, rfl, by norm_num⟩, ⟨10, rfl, by norm_num⟩, ⟨100, rfl, by norm_num⟩⟩
    · exact ⟨⟨20, rfl, by norm_num⟩, ⟨10, rfl, by norm_num⟩, ⟨100, rfl, by norm_num⟩⟩

/-! ## Claim C1 (the boundary rescale) -/

theorem fvMul_one (v : FV) : fvMul v (FV.fin 1) = v := by
  cases v <;> simp [fvMul]

theorem rescaleCol_pos (isVol : Bool) (oldv newv v : FV)
    (h1 : oldv.isNan = false) (h2 : newv.isNan = false)
    (h3 : fvNeB newv (FV.fin 0) = true) :
    rescaleCol isVol oldv newv v =
      if isVol then fvDiv v (fvDiv newv oldv) else fvMul v (fvDiv oldv newv) := by
  unfold rescaleCol
  rw [if_pos ⟨by simp [h2], h3, by simp [h1]⟩]

theorem specK_pos (oldv newv : FV) (h1 : oldv.isNan = false)
    (h2 : newv.isNan = false) (h3 : newv ≠ FV.fin 0) :
    specK oldv newv = fvDiv oldv newv := by
  unfold specK
  rw [if_neg (by simp [h1, h2, h3])]

theorem rescaleCol_fallback (isVol : Bool) (oldv newv v : FV)
    (h : oldv.isNan = true ∨ newv.isNan = true ∨ newv = FV.fin 0) :
    rescaleCol isVol oldv newv v = v := by
  unfold rescaleCol
  rw [if_neg]
  rintro ⟨g1, g2, g3⟩
  rcases h with h | h | h
  · exact g3 (by simp [h])
  · exact g1 (by simp [h])
  · subst h
    simp [fvNeB, fvEqB] at g2

theorem specK_fallback (oldv newv : FV)
    (h : oldv.isNan = true ∨ newv.isNan = true ∨ newv = FV.fin 0) :
    specK oldv newv = FV.fin 1 := by
  unfold specK
  rw [if_pos]
  tauto

theorem fvNeB_zero_of_ne (newv : FV) (h2 : newv.isNan = false)
    (h3 : newv ≠ FV.fin 0) : fvNeB newv (FV.fin 0) = true := by
  rcases newv with _ | _ | _ | q
  · simp [FV.isNan] at h2
  · rfl
  · rfl
  · have hq : q ≠ 0 := fun hq => h3 (by rw [hq])
    simp [fvNeB, fvEqB, hq]

theorem rescale_nonvol (oldv newv v : FV) :
    rescaleCol false oldv newv v = fvMul v (specK oldv newv) := by
  by_cases h : oldv.isNan = true ∨ newv.isNan = true ∨ newv = FV.fin 0
  · rw [rescaleCol_fallback false oldv newv v h, specK_fallback oldv newv h,
        fvMul_one]
  · push_neg at h
    obtain ⟨h1, h2, h3⟩ := h
    have h1a : oldv.isNan = false := by simpa using h1
    have h2a : newv.isNan = false := by simpa using h2
    rw [rescaleCol_pos false oldv newv v h1a h2a (fvNeB_zero_of_ne newv h2a h3),
        specK_pos oldv newv h1a h2a h3]
    simp

theorem qdiv_pos_swap (n o : ℚ) : (0 < n / o) ↔ (0 < o / n) := by
  rw [div_pos_iff, div_pos_iff]
  tauto

theorem rescale_vol_eq (oldv : FV)
    (hni : oldv ≠ FV.inf ∧ oldv ≠ FV.ninf) (newv v : FV) :
    rescaleCol true oldv newv v = fvMul v (specK oldv newv) := by
  by_cases h : oldv.isNan = true ∨ newv.isNan = true ∨ newv = FV.fin 0
  · rw [rescaleCol_fallback true oldv newv v h, specK_fallback oldv newv h,
        fvMul_one]
  · push_neg at h
    obtain ⟨h1, h2, h3⟩ := h
    have h1a : oldv.isNan = false := by simpa using h1
    have h2a : newv.isNan = false := by simpa using h2
    rw [rescaleCol_pos true oldv newv v h1a h2a (fvNeB_zero_of_ne newv h2a h3),
        specK_pos oldv newv h1a h2a h3]
    simp only [if_true, if_pos]
    rcases oldv with _ | _ | _ | o
    · simp [FV.isNan] at h1a
    · exact absurd rfl hni.1
    · exact absurd rfl hni.2
    · rcases newv with _ | _ | _ | n
      · simp [FV.isNan] at h2a
      · have hd : fvDiv (FV.fin o) FV.inf = FV.fin 0 := rfl
        rw [hd]
        by_cases ho : 0 ≤ o
        · have hdi : fvDiv FV.inf (FV.fin o) = FV.inf := by simp [fvDiv, ho]
          rw [hdi]
          cases v <;> simp [fvDiv, fvMul]
        · have hdi : fvDiv FV.inf (FV.fin o) = FV.ninf := by simp [fvDiv, ho]
          rw [hdi]
          cases v <;> simp [fvDiv, fvMul]
      · have hd : fvDiv (FV.fin o) FV.ninf = FV.fin 0 := rfl
        rw [hd]
        by_cases ho : 0 ≤ o
        · have hdi : fvDiv FV.ninf (FV.fin o) = FV.ninf := by simp [fvDiv, ho]
          rw [hdi]
          cases v <;> simp [fvDiv, fvMul]
        · have hdi : fvDiv FV.ninf (FV.fin o) = FV.inf := by simp [fvDiv, ho]
          rw [hdi]
          cases v <;> simp [fvDiv, fvMul]
      · have hn : n ≠ 0 := fun hq => h3 (by rw [hq])
        by_cases ho : o = 0
        · subst ho
          have h2' : fvDiv (FV.fin 0) (FV.fin n) = FV.fin 0 := by
            simp [fvDiv, hn]
          rw [h2']
          by_cases hnp : 0 < n
          · have h1' : fvDiv (FV.fin n) (FV.fin 0) = FV.inf := by
              simp [fvDiv, hn, hnp]
            rw [h1']
            cases v <;> simp [fvDiv, fvMul]
          · have h1' : fvDiv (FV.fin n) (FV.fin 0) = FV.ninf := by
              simp [fvDiv, hn, hnp]
            rw [h1']
            cases v <;> simp [fvDiv, fvMul]
        · have hno : n / o ≠ 0 := div_ne_zero hn ho
          have hon : o / n ≠ 0 := div_ne_zero ho hn
          have h1' : fvDiv (FV.fin n) (FV.fin o) = FV.fin (n / o) := by
            simp [fvDiv, ho]
          have h2' : fvDiv (FV.fin o) (FV.fin n) = FV.fin (o / n) := by
            simp [fvDiv, hn]
          rw [h1', h2']
          have hiff : (0 ≤ n / o) ↔ (0 < o / n) := by
            rw [le_iff_lt_or_eq]
            constructor
            · rintro (hx | hx)
              · exact (qdiv_pos_swap n o).mp hx
              · exact absurd hx.symm hno
            · intro hx
              exact Or.inl ((qdiv_pos_swap o n).mp hx)
          rcases v with _ | _ | _ | a
          · rfl
          · show (if 0 ≤ n / o then FV.inf else FV.ninf) =
                (if o / n = 0 then FV.nan else if 0 < o / n then FV.inf else FV.ninf)
            rw [if_neg hon]
            by_cases hle : 0 ≤ n / o
            · rw [if_pos hle, if_pos (hiff.mp hle)]
            · rw [if_neg hle, if_neg (fun hx => hle (hiff.mpr hx))]
          · show (if 0 ≤ n / o then FV.ninf else FV.inf) =
                (if o / n = 0 then FV.nan else if 0 < o / n then FV.ninf else FV.inf)
            rw [if_neg hon]
            by_cases hle : 0 ≤ n / o
            · rw [if_pos hle, if_pos (hiff.mp hle)]
            · rw [if_neg hle, if_neg (fun hx => hle (hiff.mpr hx))]
          · have hl : fvDiv (FV.fin a) (FV.fin (n / o)) = FV.fin (a / (n / o)) := by
              simp [fvDiv, hno]
            have hr : fvMul (FV.fin a) (FV.fin (o / n)) = FV.fin (a * (o / n)) := rfl
            rw [hl, hr]
            congr 1
            rw [div_div_eq_mul_div, mul_div_assoc]

theorem spliceRow_eq_spec (oldR : ORow)
    (hvol : oldR.volume ≠ FV.inf ∧ oldR.volume ≠ FV.ninf) (newR r : NRow) :
    spliceRow oldR newR r = specRescaleRow oldR newR r := by
  unfold spliceRow specRescaleRow
  rw [rescale_nonvol, rescale_nonvol, rescale_nonvol, rescale_nonvol,
      rescale_nonvol, rescale_vol_eq oldR.volume hvol]

theorem dedupGo_dates (l : List RawRow) : ∀ seen : List Nat,
    ((dedupGo seen l).map (·.date)).Nodup ∧
    ∀ r ∈ dedupGo seen l, r.date ∉ seen := by
  induction l with
  | nil =>
      intro seen
      constructor
      · simp [dedupGo]
      · intro r hr; simp [dedupGo] at hr
  | cons x xs ih =>
      intro seen
      unfold dedupGo
      split
      · exact ⟨(ih seen).1, fun r hr => (ih seen).2 r hr⟩
      · rename_i hnot
        constructor
        · rw [List.map_cons, List.nodup_cons]
          constructor
          · intro hmem
            simp only [List.mem_map] at hmem
            obtain ⟨r, hr, hd⟩ := hmem
            exact (ih (x.date :: seen)).2 r hr (hd ▸ List.mem_cons_self _ _)
          · exact (ih (x.date :: seen)).1
        · intro r hr
          rcases List.mem_cons.mp hr with rfl | h2
          · exact hnot
          · intro hmem
            exact (ih (x.date :: seen)).2 r h2 (List.mem_cons_of_mem _ hmem)

theorem reindexCal_build_date (l : List RawRow) (d : Nat) :
    (match l.find? (fun r : RawRow => r.date == d) with
     | some r => r
     | none => nanRow d).date = d := by
  rcases h : l.find? (fun r : RawRow => r.date == d) with _ | r
  · rfl
  · simpa using List.find?_some h

theorem reindexCal_dates_nodup (c : List Nat) (hc : c.Nodup) (l : List RawRow) :
    ((reindexCal c l).map (·.date)).Nodup := by
  rcases l with _ | ⟨x, xs⟩
  · simp [reindexCal]
  · unfold reindexCal
    rw [List.map_map]
    apply List.Nodup.map_on
    · intro a _ b _ hab
      have ha := reindexCal_build_date (x :: xs) a
      have hb := reindexCal_build_date (x :: xs) b
      simp only [Function.comp] at hab
      rw [ha, hb] at hab
      exact hab
    · exact hc.filter _

theorem maskRow_date (y : RawRow) : (maskRow y).date = y.date := by
  unfold maskRow
  split <;> rfl

theorem sortByDate_pairwise_lt (l : List RawRow)
    (hnd : (l.map (·.date)).Nodup) :
    (sortByDate l).Pairwise (fun a b => a.date < b.date) := by
  have hs : (sortByDate l).Pairwise dateLe := List.sorted_insertionSort dateLe l
  have hperm : (sortByDate l).Perm l := List.perm_insertionSort dateLe l
  have hnd2 : ((sortByDate l).map (·.date)).Nodup :=
    ((hperm.map _).nodup_iff).mpr hnd
  have hne : (sortByDate l).Pairwise (fun a b => a.date ≠ b.date) :=
    List.pairwise_map.mp hnd2
  exact (hs.and hne).imp fun h => Nat.lt_of_le_of_ne h.1 h.2

theorem preRows_pairwise (rows : List RawRow) (cal : Option (List Nat))
    (hcal : ∀ c, cal = some c → c.Nodup) :
    (preRows rows cal).Pairwise (fun a b => a.date < b.date) := by
  rcases rows with _ | ⟨r0, rtl⟩
  · simp [preRows]
  · unfold preRows
    apply List.pairwise_map.mpr
    refine List.Pairwise.imp ?_ (sortByDate_pairwise_lt _ ?_)
    · intro a b h
      rw [maskRow_date, maskRow_date]
      exact h
    · rcases cal with _ | c
      · exact (dedupGo_dates (r0 :: rtl) []).1
      · exact reindexCal_dates_nodup c (hcal c rfl) _

theorem pairwise_zip_left {α β : Type} (R : α → α → Prop) :
    ∀ (l1 : List α) (l2 : List β), l1.Pairwise R →
      (l1.zip l2).Pairwise (fun p q => R p.1 q.1) := by
  intro l1
  induction l1 with
  | nil => intro l2 _; simp
  | cons a l1 ih =>
      intro l2 hp
      rcases l2 with _ | ⟨b, l2⟩
      · simp
      · rw [List.zip_cons_cons]
        rcases List.pairwise_cons.mp hp with ⟨ha, htail⟩
        refine List.pairwise_cons.mpr ⟨?_, ih l2 htail⟩
        intro q hq
        exact ha q.1 (List.of_mem_zip hq).1

theorem normalizeBaostock_pairwise (raw : List RawRow) (cal : Option (List Nat))
    (lc : Option ℚ) (hcal : ∀ c, cal = some c → c.Nodup) :
    (normalizeBaostock raw cal lc).Pairwise (fun a b => a.date < b.date) := by
  rcases hraw : raw with _ | ⟨r0, rtl⟩
  · simp [normalizeBaostock]
  · subst hraw
    unfold normalizeBaostock
    apply List.pairwise_map.mpr
    refine List.Pairwise.imp ?_
      (pairwise_zip_left (fun a b : RawRow => a.date < b.date) _ _
        (preRows_pairwise (r0 :: rtl) cal hcal))
    intro p q h
    exact h

theorem normalize1d_pairwise (raw : List RawRow) (cal : Option (List Nat))
    (hcal : ∀ c, cal = some c → c.Nodup) :
    (normalize1d raw cal).Pairwise (fun a b => a.date < b.date) := by
  unfold normalize1d adjustedPrice
  apply List.pairwise_map.mpr
  exact (pairwise_zip_left (fun a b : BRow => a.date < b.date) _ _
    (normalizeBaostock_pairwise raw cal none hcal)).imp fun h => h

theorem filter_split_at (l : List NRow) (latest : Nat)
    (hpw : l.Pairwise (fun a b => a.date < b.date)) :
    ∀ r0 ∈ l, r0.date = latest →
      l.filter (fun r => decide (latest ≤ r.date)) =
        r0 :: l.filter (fun r => decide (latest < r.date)) := by
  induction l with
  | nil => intro r0 h; cases h
  | cons a l ih =>
      intro r0 hr0 hd
      rcases List.pairwise_cons.mp hpw with ⟨ha, htail⟩
      rcases List.mem_cons.mp hr0 with rfl | hmem
      · rw [List.filter_cons, List.filter_cons]
        have h1 : (decide (latest ≤ r0.date)) = true := by simp [hd]
        have h2 : (decide (latest < r0.date)) = false := by simp [hd]
        rw [h1, h2]
        simp only [if_true, Bool.false_eq_true, if_false]
        congr 1
        apply List.filter_congr
        intro b hb
        have hlt : r0.date < b.date := ha b hb
        rw [hd] at hlt
        simp [Nat.le_of_lt hlt, hlt]
      · have halt : a.date < latest := hd ▸ ha r0 hmem
        rw [List.filter_cons, List.filter_cons]
        have h1 : (decide (latest ≤ a.date)) = false := by
          simp
          omega
        have h2 : (decide (latest < a.date)) = false := by
          simp
          omega
        rw [h1, h2]
        simp only [Bool.false_eq_true, if_false]
        exact ih htail r0 hmem hd

/-- C1: for an instrument present in the archive whose newly normalized
series contains a row at the archive's last date `lastDate` and at least one
row strictly after it, the extension multiplies each of the columns open,
high, low, close, volume and factor of every row strictly after `lastDate`
by `k_col = archivedRow[lastDate][col] / newRow[lastDate][col]` (with
`k_col = 1` when the new value at `lastDate` is zero or NaN or the archived
value is NaN), drops the `lastDate` row, and returns exactly the
strictly-after rows (`specRescaleRow` is written from the claim's words).
The archived volume is assumed not infinite (the code divides volume by
`new/old` rather than multiplying by `old/new`; the two coincide over the
floats, but this rational model does not track the sign of zero, which
matters only for an infinite archived value). -/
theorem claim1_extend_rescales_by_boundary_ratio
    (od : List (String × List (Nat × ORow))) (cal : Option (List Nat))
    (raw : List RawRow) (nh : NRow) (nt : List NRow) (sym : String)
    (oldRows : List (Nat × ORow)) (latest : Nat) (oldLatest : ORow) (rAt : NRow)
    (hcal : ∀ c, cal = some c → c.Nodup)
    (hn : normalize1d raw cal = nh :: nt)
    (hfind : od.find? (fun p => p.1 == strUpper nh.symbol) = some (sym, oldRows))
    (hlast : oldRows.getLast? = some (latest, oldLatest))
    (hAt : rAt ∈ nh :: nt) (hAtd : rAt.date = latest)
    (hAfter : ∃ r ∈ nh :: nt, latest < r.date)
    (hvol : oldLatest.volume ≠ FV.inf ∧ oldLatest.volume ≠ FV.ninf) :
    extendNormalize od cal raw =
      some (((nh :: nt).filter (fun r => decide (latest < r.date))).map
        (fun r => specRescaleRow oldLatest rAt r)) := by
  have hpw : (nh :: nt).Pairwise (fun a b => a.date < b.date) :=
    hn ▸ normalize1d_pairwise raw cal hcal
  have hsplit := filter_split_at (nh :: nt) latest hpw rAt hAt hAtd
  unfold extendNormalize
  rw [hn]
  simp only [hfind, hlast]
  unfold extendSplice
  rw [hsplit]
  obtain ⟨rx, hrx, hrxd⟩ := hAfter
  rcases hflt : (nh :: nt).filter (fun r => decide (latest < r.date)) with _ | ⟨f1, rest⟩
  · exfalso
    have hmem : rx ∈ (nh :: nt).filter (fun r => decide (latest < r.date)) :=
      List.mem_filter.mpr ⟨hrx, by simp [hrxd]⟩
    rw [hflt] at hmem
    cases hmem
  · rw [hflt]
    congr 1
    exact List.map_congr_left fun r _ => spliceRow_eq_spec oldLatest hvol rAt r

/-- Raw input of the C1 witness: the spec's splice scenario — the archive
ends at date 630 with close 15.0, and the new fetch covers 630..702 with
closes 30.0, 31.0, 32.0 (a different adjustment basis). -/
def rawC1 : List RawRow :=
  [⟨630, "sh600000", FV.fin 28, FV.fin 32, FV.fin 26, FV.fin 30, FV.fin 30, FV.fin 500⟩,
   ⟨701, "sh600000", FV.fin 30, FV.fin 33, FV.fin 29, FV.fin 31, FV.fin 30, FV.fin 600⟩,
   ⟨702, "sh600000", FV.fin 31, FV.fin 34, FV.fin 30, FV.fin 32, FV.fin 31, FV.fin 700⟩]

/-- The normalized boundary row of the C1 witness (date 630, close 30). -/
def nB630 : NRow :=
  ⟨630, "sh600000", FV.fin 28, FV.fin 32, FV.fin 26, FV.fin 30, FV.fin 30,
   FV.fin 500, FV.nan, FV.fin 1⟩

/-- The normalized rows of the C1 witness strictly after the boundary. -/
def nB701 : NRow :=
  ⟨701, "sh600000", FV.fin 30, FV.fin 33, FV.fin 29, FV.fin 31, FV.fin 30,
   FV.fin (18000/31), FV.fin (1/30), FV.fin (31/30)⟩

/-- See `nB701`. -/
def nB702 : NRow :=
  ⟨702, "sh600000", FV.fin 31, FV.fin 34, FV.fin 30, FV.fin 32, FV.fin 31,
   FV.fin (2625/4), FV.fin (1/31), FV.fin (16/15)⟩

/-- Witness for C1 at the spec's concrete scenario: with archived close 15.0
at the boundary and new closes 30.0, 31.0, 32.0, the appended rows are the
two strictly-after rows rescaled by `k_close = 15/30 = 0.5` — closes 15.5 and
16.0 — and the boundary row is not appended. -/
theorem claim1_extend_rescales_by_boundary_ratio_witness :
    extendNormalize odArch none rawC1 =
      some ([nB701, nB702].map (fun r => specRescaleRow oldLatestArch nB630 r)) ∧
    (extendNormalize odArch none rawC1).map (fun l => l.map (·.close)) =
      some [FV.fin (31/2), FV.fin 16] ∧
    (extendNormalize odArch none rawC1).map (fun l => l.map (·.date)) =
      some [701, 702] := by
  refine ⟨?_, by decide, by decide⟩
  have h := claim1_extend_rescales_by_boundary_ratio odArch none rawC1
    nB630 [nB701, nB702] "SH600000" [(630, oldLatestArch)] 630 oldLatestArch nB630
    (fun c hc => by cases hc) (by decide) (by decide) (by decide) (by decide)
    (by decide) (by decide) (by decide)
  rw [h]
  decide
